import Mathlib

/-!
Verification of the aider-acp output-interpretation engine and session
orchestrator against its specification.

The development shallowly embeds `src/aider-output-parser.ts` and the
relevant parts of `src/acp-agent.ts` in Lean.  JavaScript strings are
modelled as `List Char` (one element per Unicode scalar; the few places
where the source counts UTF-16 code units are noted at the definition).
All definitions are executable and follow the source line by line.
-/

namespace AiderACP

/-- Abbreviation turning a Lean string literal into the `List Char`
representation used throughout the embedding. -/
def str (s : String) : List Char := s.data

/-- The newline character. -/
def nlChar : Char := '\n'

/-- Backtick character (written via its code point so that it can appear
outside string literals). -/
def btChar : Char := Char.ofNat 96

/-- Apostrophe character (written via its code point). -/
def apChar : Char := Char.ofNat 39

/-- JavaScript whitespace as used by `String.prototype.trim`, `trimStart`,
`trimEnd` and the regex class `\s`: ASCII blanks, line terminators, NBSP,
BOM and the Unicode line/paragraph separators. -/
def isJsSpace (c : Char) : Bool :=
  c == ' ' || c == '\t' || c == '\n' || c == '\r' ||
  c == Char.ofNat 0x0b || c == Char.ofNat 0x0c ||
  c == Char.ofNat 0xa0 || c == Char.ofNat 0xfeff ||
  c == Char.ofNat 0x2028 || c == Char.ofNat 0x2029

/-- JS `trimStart()`. -/
def jsTrimStart (l : List Char) : List Char := l.dropWhile isJsSpace

/-- JS `trimEnd()`. -/
def jsTrimEnd (l : List Char) : List Char := (l.reverse.dropWhile isJsSpace).reverse

/-- JS `trim()`. -/
def jsTrim (l : List Char) : List Char := jsTrimEnd (jsTrimStart l)

/-- JS `String.prototype.startsWith`. -/
def strStartsWith (pre l : List Char) : Bool := List.isPrefixOf pre l

/-- JS `String.prototype.endsWith`. -/
def strEndsWith (suf l : List Char) : Bool := List.isPrefixOf suf.reverse l.reverse

/-- JS `String.prototype.includes`: `needle` occurs contiguously in `hay`. -/
def hasSub (needle hay : List Char) : Bool :=
  (List.range (hay.length + 1)).any (fun i => strStartsWith needle (hay.drop i))

/-- ASCII lower-casing of one character, as JS `toLowerCase` acts on the
ASCII range (the only range the parser's patterns use). -/
def asciiLower (c : Char) : Char :=
  if 'A' ≤ c ∧ c ≤ 'Z' then Char.ofNat (c.toNat + 32) else c

/-- JS `toLowerCase()` on the ASCII range. -/
def asciiLowerStr (l : List Char) : List Char := l.map asciiLower

/-- JS `Array.prototype.join(sep)`. -/
def joinWith (sep : List Char) : List (List Char) → List Char
  | [] => []
  | [x] => x
  | x :: xs => x ++ sep ++ joinWith sep xs

/-- Source `splitPreservingNewlines`, accumulator form: slices the input
after every `'\n'` (each part keeps its newline), with a trailing part for
input not ending in a newline. -/
def splitPreservingNewlinesAux (acc : List Char) : List Char → List (List Char)
  | [] => if acc = [] then [] else [acc.reverse]
  | c :: cs =>
    if c = '\n' then (acc.reverse ++ ['\n']) :: splitPreservingNewlinesAux [] cs
    else splitPreservingNewlinesAux (c :: acc) cs

/-- Source `splitPreservingNewlines` (`src/aider-output-parser.ts:247`). -/
def splitPreservingNewlines (l : List Char) : List (List Char) :=
  splitPreservingNewlinesAux [] l

/-- JS `content.split("\n")`, accumulator form; note `"".split("\n")`
is `[""]`. -/
def splitOnNlAux (acc : List Char) : List Char → List (List Char)
  | [] => [acc.reverse]
  | c :: cs =>
    if c = '\n' then acc.reverse :: splitOnNlAux [] cs
    else splitOnNlAux (c :: acc) cs

/-- JS `content.split("\n")`. -/
def splitOnNl (l : List Char) : List (List Char) := splitOnNlAux [] l

/-- Source `trimTrailingNewline` (`src/aider-output-parser.ts:269`). -/
def trimTrailingNewline (l : List Char) : List Char :=
  if strEndsWith (str "\r\n") l then l.dropLast.dropLast
  else if strEndsWith (str "\n") l || strEndsWith (str "\r") l then l.dropLast
  else l

/-! ## Tokenizer

The source lexer (`aiderLexer`) cuts the raw text into one token per
physical line (each token keeps its terminating newline, matching the
lexer regexes, which consume `[^\n]*\r?\n?` after the optional fence
introducer), and
classifies a line as a fence token exactly when optional leading blanks
are followed by three backticks. -/

/-- Token classes of the lexer (`AiderTokenKind`). -/
inductive TokKind
  | fence
  | line
  deriving DecidableEq, Repr

/-- One lexer token: its class and its raw text (newline included). -/
structure Tok where
  kind : TokKind
  text : List Char
  deriving DecidableEq, Repr

/-- Recognition rule for a fence line: optional leading spaces/tabs
followed by a triple backtick. -/
def isFenceLineChars (l : List Char) : Bool :=
  strStartsWith (str "```") (l.dropWhile (fun c => c == ' ' || c == '\t'))

/-- Classify one physical line into a token. -/
def classifyLine (l : List Char) : Tok :=
  ⟨if isFenceLineChars l then .fence else .line, l⟩

/-- The lexer: one token per physical line of the input. -/
def tokenize (output : List Char) : List Tok :=
  (splitPreservingNewlines output).map classifyLine

/-! ## Segmenter -/

/-- Source `Segment` union: a plain line, a complete fenced code block,
or a fence opened but never closed. -/
inductive Segment
  | line (text : List Char)
  | code (openLine : List Char) (lines : List (List Char)) (closeLine : List Char)
  | incomplete (openLine : List Char) (lines : List (List Char))
  deriving DecidableEq, Repr

/-- Token predicate for the greedy `rep_sc(lineTokenParser)` body scan. -/
def isLineTok (t : Tok) : Bool := t.kind = TokKind.line

/-- Segmenter loop with explicit fuel (the recursion consumes a
non-structural amount of tokens per step; `fuel = length` suffices and
keeps the definition reducible by the kernel).  Mirrors the grammar
`segment := completeBlock | incompleteBlock | line` with committed
alternation: at a fence token the maximal run of line tokens follows, and
a closing fence yields a `code` segment while end of input yields an
`incomplete` segment. -/
def segGo : Nat → List Tok → List Segment
  | _, [] => []
  | 0, _ :: _ => []
  | fuel + 1, t :: rest =>
    if t.kind = TokKind.line then .line t.text :: segGo fuel rest
    else
      let body := rest.takeWhile isLineTok
      match rest.dropWhile isLineTok with
      | c :: rest2 => .code t.text (body.map Tok.text) c.text :: segGo fuel rest2
      | [] => [.incomplete t.text (body.map Tok.text)]

/-- Source `parseSegmentsFromOutput` (`src/aider-output-parser.ts:223`):
empty input yields no segments, otherwise the token stream is grouped
into segments. -/
def parseSegmentsFromOutput (output : List Char) : List Segment :=
  if output = [] then [] else segGo (tokenize output).length (tokenize output)

/-- Source `fallbackToLineSegments` (`src/aider-output-parser.ts:240`):
the degradation path re-splits the input into one `line` segment per
physical line. -/
def fallbackToLineSegments (output : List Char) : List Segment :=
  (splitPreservingNewlines output).map .line

/-- Raw text of a segment: its line text, or the open fence line plus the
body lines plus (for complete blocks) the close fence line. -/
def segText : Segment → List Char
  | .line t => t
  | .code o ls c => o ++ ls.flatten ++ c
  | .incomplete o ls => o ++ ls.flatten

/-! ## Parser data model -/

/-- Source `AiderInfo`: aggregated per-chunk metadata. -/
structure AiderInfo where
  version : Option (List Char) := none
  mainModel : Option (List Char) := none
  weakModel : Option (List Char) := none
  gitRepo : Option (List Char) := none
  repoMap : Option (List Char) := none
  chatTokens : Option (List Char) := none
  cost : Option (List Char) := none
  warnings : List (List Char) := []
  errors : List (List Char) := []
  deriving DecidableEq, Repr

/-- Source `EditBlock.format` union. -/
inductive EditFormat
  | whole
  | diff
  | diffFenced
  | udiff
  | editorDiff
  | editorWhole
  deriving DecidableEq, Repr

/-- Source `EditBlock`: one proposed file mutation. -/
structure EditBlock where
  format : EditFormat
  path : List Char
  oldText : Option (List Char) := none
  newText : List Char
  deriving DecidableEq, Repr

/-- Source `CodeBlock`: a fenced block that is not an edit. -/
structure CodeBlock where
  path : List Char
  content : List Char
  deriving DecidableEq, Repr

/-- Source `ParsedAiderOutput`. -/
structure ParsedAiderOutput where
  info : AiderInfo
  userMessage : List Char
  editBlocks : List EditBlock
  codeBlocks : List CodeBlock
  prompts : List (List Char)
  deriving DecidableEq, Repr

/-- Source `DiffSearchReplace`. -/
structure DiffSearchReplace where
  search : List Char
  replace : List Char
  deriving DecidableEq, Repr

/-! ## Line classifier -/

/-- The SEARCH marker literal. -/
def searchMarker : List Char := str "<<<<<<< SEARCH"

/-- The divider literal of a SEARCH/REPLACE triplet. -/
def dividerMarker : List Char := str "======="

/-- The REPLACE marker literal. -/
def replaceMarker : List Char := str ">>>>>>> REPLACE"

/-- Source `isPromptIndicator` (`src/aider-output-parser.ts:330`). -/
def isPromptIndicator (line : List Char) : Bool :=
  line = str ">" || jsTrim line = str ">"

/-- Source `isPromptLine` (`src/aider-output-parser.ts:334`): the line must
contain a question mark and one of the known yes/no phrasings
(case-insensitively). -/
def isPromptLine (line : List Char) : Bool :=
  hasSub (str "?") line &&
  (let n := asciiLowerStr line
   hasSub (str "(y)es/(n)o") n ||
   hasSub (str "(y/n)") n ||
   hasSub (str "[y/n]") n ||
   hasSub (str "(y)es/(n)o/(d)on" ++ [apChar] ++ str "t ask again") n ||
   hasSub (str "open url for more info?") n ||
   hasSub (str "add file to the chat?") n)

/-- Source `collectPromptMessage` (`src/aider-output-parser.ts:294`):
returns whether the line is a prompt and the (possibly extended) prompts
list; identical consecutive prompts are recorded once because the line is
only pushed when it differs from the last recorded prompt. -/
def collectPromptMessage (line : List Char) (prompts : List (List Char)) :
    Bool × List (List Char) :=
  let trimmed := jsTrim line
  if trimmed = [] then (false, prompts)
  else if ¬ isPromptLine trimmed then (false, prompts)
  else if prompts.getLast? ≠ some trimmed then (true, prompts ++ [trimmed])
  else (true, prompts)

/-- Source `isCommandEcho` (`src/aider-output-parser.ts:321`). -/
def isCommandEcho (line : List Char) : Bool :=
  isPromptIndicator line ||
  (strStartsWith (str "> ") line && !hasSub (str "<<<") line && !hasSub (str ">>>") line)

/-- Source `shouldSkipForUserMessage` (`src/aider-output-parser.ts:308`). -/
def shouldSkipForUserMessage (line : List Char) : Bool :=
  isPromptIndicator line ||
  isPromptLine (jsTrim line) ||
  (strStartsWith (str "> ") line && !hasSub (str "<<<") line && !hasSub (str ">>>") line)

/-- Source `stripStatusPrefix` (`src/aider-output-parser.ts:281`): trim the
start, strip a leading warning/error/folder glyph, then strip a leading
progress-bar run.  JS `slice(2)` counts UTF-16 code units: the warning
sign is two units (two scalars), the cross mark is one unit so the slice
also removes the following unit, and the folder emoji is an astral pair
(one scalar). -/
def stripStatusMarker (line : List Char) : List Char :=
  let r := jsTrimStart line
  let r :=
    if strStartsWith (str "⚠️") r then jsTrimStart (r.drop 2)
    else if strStartsWith (str "❌") r then jsTrimStart (r.drop 2)
    else if strStartsWith (str "📁") r then jsTrimStart (r.drop 1)
    else r
  match r with
  | c :: _ =>
    if c == '░' || c == '█' then
      (r.dropWhile (fun c => c == '░' || c == '█')).dropWhile isJsSpace
    else r
  | [] => r

/-- Character class `[a-zA-Z0-9_.-]` of the file-path regexes. -/
def isPathClassChar (c : Char) : Bool :=
  c.isAlpha || c.isDigit || c == '_' || c == '.' || c == '-'

/-- Regex `^[a-zA-Z0-9_.-]+\.[a-zA-Z0-9]+$` (full match): some non-empty
class prefix, a dot, then a non-empty alphanumeric tail reaching the end. -/
def matchesDottedName (path : List Char) : Bool :=
  (List.range (path.length + 1)).any (fun i =>
    decide (0 < i) && (path.take i).all isPathClassChar &&
    (path.drop i).head? == some '.' &&
    decide (path.drop (i + 1) ≠ []) &&
    (path.drop (i + 1)).all (fun c => c.isAlpha || c.isDigit))

/-- Regex `^[a-zA-Z0-9_.-]+\/` (prefix match): some non-empty class prefix
followed by a slash. -/
def matchesDirName (path : List Char) : Bool :=
  (List.range (path.length + 1)).any (fun i =>
    decide (0 < i) && (path.take i).all isPathClassChar &&
    (path.drop i).head? == some '/')

/-- Regex `^[a-zA-Z0-9_.-]+$` (full match). -/
def matchesBareName (path : List Char) : Bool :=
  decide (path ≠ []) && path.all isPathClassChar

/-- Source `isValidFilePath` (`src/aider-output-parser.ts:605`): non-empty,
free of fence/diff-marker syntax and of the substring diff, not starting
with a sign, and shaped like a path. -/
def isValidFilePath (path : List Char) : Bool :=
  if path = [] then false
  else if hasSub (str "```") path || hasSub (str "<<<") path ||
          hasSub (str ">>>") path || hasSub (str "===") path ||
          hasSub (str "diff") path ||
          strStartsWith (str "-") path || strStartsWith (str "+") path then false
  else
    hasSub (str "/") path || hasSub (str ".") path ||
    matchesDottedName path || matchesDirName path || matchesBareName path

/-- Source `isPotentialFilePath` (`src/aider-output-parser.ts:495`):
non-empty, no whitespace, and a valid file path. -/
def isPotentialFilePath (value : List Char) : Bool :=
  if value = [] || value.any isJsSpace then false
  else isValidFilePath value

/-! ## Metadata aggregation (`processInfoLine` and its regexes) -/

/-- Regex `^Aider (v[0-9.]+\S*)`: the captured group is the `v`, the
greedy run of digits and dots (at least one), and the greedy run of
non-space characters after it. -/
def matchAiderVersion (l : List Char) : Option (List Char) :=
  if strStartsWith (str "Aider v") l then
    let afterV := l.drop 7
    let digits := afterV.takeWhile (fun c => c.isDigit || c == '.')
    if digits = [] then none
    else
      let rest := afterV.dropWhile (fun c => c.isDigit || c == '.')
      some ('v' :: digits ++ rest.takeWhile (fun c => !isJsSpace c))
  else none

/-- Regex `^<label>(.+)`: prefix match with a non-empty remainder, the
remainder being the captured group (the line holds no newline). -/
def matchLabeled (label l : List Char) : Option (List Char) :=
  if strStartsWith label l ∧ l.drop label.length ≠ [] then some (l.drop label.length)
  else none

/-- Word-constituent characters of the regex class `\w`. -/
def isWordChar (c : Char) : Bool := c.isAlpha || c.isDigit || c == '_'

/-- Case-insensitive `\b<word>\b` search (`word` given lowercase): an
occurrence whose neighbours on both sides are not word characters. -/
def containsWordCI (word l : List Char) : Bool :=
  (List.range (l.length + 1)).any (fun i =>
    strStartsWith word (asciiLowerStr (l.drop i)) &&
    (decide (i = 0) || !(isWordChar ((l.take i).getLast?.getD ' '))) &&
    ((l.drop (i + word.length)).head?.map isWordChar |>.getD false) = false)

/-- Regex `^https?:\/\/[\w\-./?#=&%]+$` (case-insensitive). -/
def matchesUrl (l : List Char) : Bool :=
  let n := asciiLowerStr l
  let afterScheme : Option (List Char) :=
    if strStartsWith (str "https://") n then some (n.drop 8)
    else if strStartsWith (str "http://") n then some (n.drop 7)
    else none
  match afterScheme with
  | none => false
  | some rest =>
    decide (rest ≠ []) && rest.all (fun c =>
      isWordChar c || c == '-' || c == '.' || c == '/' || c == '?' ||
      c == '#' || c == '=' || c == '&' || c == '%')

/-- Regex `^waiting for ` (case-insensitive prefix). -/
def matchesWaitingFor (l : List Char) : Bool :=
  strStartsWith (str "waiting for ") (asciiLowerStr l)

/-- Source `processInfoLine` (`src/aider-output-parser.ts:349`): classify a
trimmed line into one metadata field, warning or error, in the source's
cascade order; returns whether the line was consumed together with the
updated info record. -/
def processInfoLine (line : List Char) (info : AiderInfo) : Bool × AiderInfo :=
  if line = [] then (false, info)
  else
    let nl := stripStatusMarker line
    match matchAiderVersion nl with
    | some v => (true, { info with version := some v })
    | none =>
    match matchLabeled (str "Main model: ") nl with
    | some v => (true, { info with mainModel := some v })
    | none =>
    match matchLabeled (str "Weak model: ") nl with
    | some v => (true, { info with weakModel := some v })
    | none =>
    match matchLabeled (str "Git repo: ") nl with
    | some v => (true, { info with gitRepo := some v })
    | none =>
    match matchLabeled (str "Repo-map: ") nl with
    | some v => (true, { info with repoMap := some v })
    | none =>
    match (matchLabeled (str "Tokens: ") nl).orElse (fun _ => matchLabeled (str "Token: ") nl) with
    | some v => (true, { info with chatTokens := some v })
    | none =>
    match matchLabeled (str "Cost: ") nl with
    | some v => (true, { info with cost := some v })
    | none =>
    if containsWordCI (str "warning") nl then (true, { info with warnings := info.warnings ++ [nl] })
    else if containsWordCI (str "error") nl then (true, { info with errors := info.errors ++ [nl] })
    else if strStartsWith (str "Cost estimates may be inaccurate") nl then
      (true, { info with warnings := info.warnings ++ [nl] })
    else if strStartsWith (str "Initial repo scan can be slow") nl then
      (true, { info with warnings := info.warnings ++ [nl] })
    else if matchesUrl nl then (true, { info with warnings := info.warnings ++ [nl] })
    else if matchesWaitingFor nl then (true, { info with warnings := info.warnings ++ [nl] })
    else (false, info)

/-! ## Format extractors -/

/-- Source `linesToContent` (`src/aider-output-parser.ts:491`). -/
def linesToContent (lines : List (List Char)) : List Char :=
  joinWith (str "\n") (lines.map trimTrailingNewline)

/-- Source `extractFenceLabel` (`src/aider-output-parser.ts:483`). -/
def extractFenceLabel (openLine : List Char) : List Char :=
  let trimmedStart := jsTrimStart (trimTrailingNewline openLine)
  if strStartsWith (str "```") trimmedStart then jsTrim (trimmedStart.drop 3)
  else jsTrim trimmedStart

/-- Scanning loop of `extractSearchReplaceBlocks`
(`src/aider-output-parser.ts:561`), with fuel so the definition reduces
by the kernel (`fuel = number of lines` suffices; every step consumes at
least one line).  At a SEARCH marker the search lines run until the
divider, the replace lines until the REPLACE marker; the pair is recorded
when at least one side is non-empty, and scanning resumes after the
REPLACE marker. -/
def srbGo : Nat → List (List Char) → List DiffSearchReplace
  | _, [] => []
  | 0, _ :: _ => []
  | fuel + 1, l :: rest =>
    if jsTrim l = searchMarker then
      let searchLines := rest.takeWhile (fun x => ¬ jsTrim x = dividerMarker)
      let afterSearch := (rest.dropWhile (fun x => ¬ jsTrim x = dividerMarker)).tail
      let replaceLines := afterSearch.takeWhile (fun x => ¬ jsTrim x = replaceMarker)
      let afterReplace := (afterSearch.dropWhile (fun x => ¬ jsTrim x = replaceMarker)).tail
      (if searchLines ≠ [] ∨ replaceLines ≠ [] then
        [⟨joinWith (str "\n") searchLines, joinWith (str "\n") replaceLines⟩]
       else []) ++ srbGo fuel afterReplace
    else srbGo fuel rest

/-- Source `extractSearchReplaceBlocks` (`src/aider-output-parser.ts:561`). -/
def extractSearchReplaceBlocks (content : List Char) : List DiffSearchReplace :=
  srbGo (splitOnNl content).length (splitOnNl content)

/-- Source `parseDiffFormat` (`src/aider-output-parser.ts:502`): only the
first SEARCH/REPLACE pair of the block is used. -/
def parseDiffFormat (path content : List Char) : Option EditBlock :=
  match extractSearchReplaceBlocks content with
  | [] => none
  | b :: _ => some ⟨.diff, path, some b.search, b.replace⟩

/-- Source `parseDiffFencedFormat` (`src/aider-output-parser.ts:519`). -/
def parseDiffFencedFormat (path : List Char) (contentLines : List (List Char)) :
    Option EditBlock :=
  parseDiffFormat path (joinWith (str "\n") contentLines)

/-- Accumulator of the `parseUdiffFormat` scan. -/
structure UdiffAcc where
  path : List Char
  oldText : List Char
  newText : List Char
  deriving DecidableEq, Repr

/-- Line scan of `parseUdiffFormat` (`src/aider-output-parser.ts:534`). -/
def udiffGo : List (List Char) → UdiffAcc → UdiffAcc
  | [], acc => acc
  | l :: rest, acc =>
    if strStartsWith (str "--- ") l then
      udiffGo rest { acc with path := jsTrim (l.drop 4) }
    else if strStartsWith (str "+++ ") l then
      let newPath := jsTrim (l.drop 4)
      udiffGo rest (if newPath ≠ [] then { acc with path := newPath } else acc)
    else if strStartsWith (str "-") l && !strStartsWith (str "---") l then
      udiffGo rest { acc with oldText := acc.oldText ++ l.drop 1 ++ ['\n'] }
    else if strStartsWith (str "+") l && !strStartsWith (str "+++") l then
      udiffGo rest { acc with newText := acc.newText ++ l.drop 1 ++ ['\n'] }
    else udiffGo rest acc

/-- Source `parseUdiffFormat` (`src/aider-output-parser.ts:527`). -/
def parseUdiffFormat (content : List Char) : Option EditBlock :=
  let acc := udiffGo (splitOnNl content) ⟨[], [], []⟩
  if acc.path = [] then none
  else some ⟨.udiff, acc.path, some (jsTrimEnd acc.oldText), jsTrimEnd acc.newText⟩

/-- Source `buildEditBlockFromPathAndCode` (`src/aider-output-parser.ts:431`). -/
def buildEditBlockFromPathAndCode (path : List Char) (blockLines : List (List Char)) :
    Option EditBlock :=
  let content := linesToContent blockLines
  if hasSub searchMarker content then parseDiffFormat path content
  else some ⟨.whole, path, none, content⟩

/-- Source `handleStandaloneCodeSegment` (`src/aider-output-parser.ts:448`):
returns the extended edit-block and code-block lists.  A diff/udiff label
first tries the unified-diff extractor; then a first line that is a
plausible path over a body holding the SEARCH marker tries the
diff-fenced extractor; otherwise the block is recorded as a plain code
block labeled by the fence label or unknown. -/
def handleStandaloneCodeSegment (openLine : List Char) (bodyLines : List (List Char))
    (editBlocks : List EditBlock) (codeBlocks : List CodeBlock) :
    List EditBlock × List CodeBlock :=
  let label := extractFenceLabel openLine
  let normalizedLabel := asciiLowerStr label
  let contentLines := bodyLines.map trimTrailingNewline
  let content := joinWith (str "\n") contentLines
  let viaUdiff : Option EditBlock :=
    if normalizedLabel = str "diff" ∨ normalizedLabel = str "udiff" then
      parseUdiffFormat content
    else none
  match viaUdiff with
  | some eb => (editBlocks ++ [eb], codeBlocks)
  | none =>
    let viaFenced : Option EditBlock :=
      match contentLines with
      | [] => none
      | first :: restLines =>
        let firstLine := jsTrim first
        if isPotentialFilePath firstLine && hasSub searchMarker content then
          parseDiffFencedFormat firstLine restLines
        else none
    match viaFenced with
    | some eb => (editBlocks ++ [eb], codeBlocks)
    | none =>
      (editBlocks, codeBlocks ++ [⟨if label = [] then str "unknown" else label, content⟩])

/-! ## Output aggregator (`parseAiderOutput` main loop) -/

/-- Mutable locals of the `parseAiderOutput` loop
(`src/aider-output-parser.ts:129`). -/
structure ParseState where
  info : AiderInfo := {}
  userMessageLines : List (List Char) := []
  editBlocks : List EditBlock := []
  codeBlocks : List CodeBlock := []
  prompts : List (List Char) := []
  capturingUserMessage : Bool := false
  foundFirstUserMessage : Bool := false
  deriving DecidableEq, Repr

/-- Regex `^[A-Za-z\s]+:` (prefix test): a non-empty run of letters and
whitespace followed by a colon. -/
def matchesLabelShape (l : List Char) : Bool :=
  let run := l.takeWhile (fun c => c.isAlpha || isJsSpace c)
  decide (run ≠ []) && (l.drop run.length).head? == some ':'

/-- Tail of the line branch of the `parseAiderOutput` loop
(`src/aider-output-parser.ts:174`): metadata line, skip line, or
conversational-text capture with its first-line gate. -/
def lineRestStep (normalizedLine trimmedLine : List Char) (st : ParseState) : ParseState :=
  match processInfoLine trimmedLine st.info with
  | (true, info2) => { st with info := info2, capturingUserMessage := false }
  | (false, _) =>
    if shouldSkipForUserMessage normalizedLine then
      { st with capturingUserMessage := false }
    else
      let st :=
        if !st.foundFirstUserMessage && decide (trimmedLine ≠ []) &&
           !matchesLabelShape trimmedLine &&
           !strStartsWith (str "Aider v") trimmedLine &&
           !strStartsWith (str "```") normalizedLine then
          { st with foundFirstUserMessage := true, capturingUserMessage := true }
        else st
      if st.capturingUserMessage then
        { st with userMessageLines := st.userMessageLines ++ [normalizedLine] }
      else st

/-- The `parseAiderOutput` segment loop (`src/aider-output-parser.ts:144`).
A line segment is first tested as a confirmation prompt; then, when the
next segment is a complete code block and the line is a plausible
non-echo path, the pair is fed to the path-plus-fence extractor and the
code segment is consumed on success; otherwise the line goes through the
metadata/skip/user-message cascade.  A standalone code segment goes to
`handleStandaloneCodeSegment`, and an incomplete segment's lines are
appended to the conversational text. -/
def psGo : Nat → List Segment → ParseState → ParseState
  | _, [], st => st
  | 0, _ :: _, st => st
  | fuel + 1, .line t :: rest, st =>
    let normalizedLine := trimTrailingNewline t
    let trimmedLine := jsTrim normalizedLine
    match collectPromptMessage normalizedLine st.prompts with
    | (true, prompts2) =>
      psGo fuel rest { st with prompts := prompts2, capturingUserMessage := false }
    | (false, _) =>
      match rest with
      | .code _o body _c :: rest2 =>
        if isPotentialFilePath trimmedLine && !isCommandEcho normalizedLine then
          match buildEditBlockFromPathAndCode trimmedLine body with
          | some eb =>
            psGo fuel rest2
              { st with editBlocks := st.editBlocks ++ [eb], capturingUserMessage := false }
          | none => psGo fuel rest (lineRestStep normalizedLine trimmedLine st)
        else psGo fuel rest (lineRestStep normalizedLine trimmedLine st)
      | _ => psGo fuel rest (lineRestStep normalizedLine trimmedLine st)
  | fuel + 1, .code o body _c :: rest, st =>
    let (eb2, cb2) := handleStandaloneCodeSegment o body st.editBlocks st.codeBlocks
    psGo fuel rest
      { st with editBlocks := eb2, codeBlocks := cb2, capturingUserMessage := false }
  | fuel + 1, .incomplete o body :: rest, st =>
    let pendingLines := trimTrailingNewline o :: body.map trimTrailingNewline
    psGo fuel rest
      { st with userMessageLines := st.userMessageLines ++ pendingLines.filter (· ≠ []) }

/-- The `parseAiderOutput` segment loop applied with sufficient fuel. -/
def processSegments (segs : List Segment) (st : ParseState) : ParseState :=
  psGo segs.length segs st

/-- Source `parseAiderOutput` (`src/aider-output-parser.ts:129`). -/
def parseAiderOutput (output : List Char) : ParsedAiderOutput :=
  let st := processSegments (parseSegmentsFromOutput output) {}
  { info := st.info
    userMessage := joinWith (str "\n") st.userMessageLines
    editBlocks := st.editBlocks
    codeBlocks := st.codeBlocks
    prompts := st.prompts }

/-- An ACP diff payload as built by `convertEditBlocksToACPDiffs` (the
`type` field of the source record is the constant diff and is omitted). -/
structure ACPDiff where
  path : List Char
  oldText : Option (List Char)
  newText : List Char
  deriving DecidableEq, Repr

/-- Source `convertEditBlocksToACPDiffs` (`src/aider-output-parser.ts:631`):
`block.oldText || null` maps an absent or empty search text to null. -/
def convertEditBlocksToACPDiffs (editBlocks : List EditBlock) : List ACPDiff :=
  editBlocks.map (fun b =>
    { path := b.path
      oldText := match b.oldText with
        | some t => if t = [] then none else some t
        | none => none
      newText := b.newText })

/-! ## Session orchestrator (`src/acp-agent.ts`, `src/types.ts`)

The orchestrator's state is embedded from `SessionState` in
`src/types.ts`; subprocess interaction and client notifications are
modelled as explicit event traces. -/

/-- Source `ToolCallState` (`src/types.ts`). -/
structure ToolCallState where
  id : List Char
  kind : List Char
  status : List Char
  startTime : Nat
  deriving DecidableEq, Repr

/-- Source `PlanEntry.priority`. -/
inductive PlanPriority
  | high
  | medium
  | low
  deriving DecidableEq, Repr

/-- Source `PlanEntry.status`. -/
inductive PlanEntryStatus
  | pending
  | inProgress
  | completed
  deriving DecidableEq, Repr

/-- Source `PlanEntry` (`src/types.ts`). -/
structure PlanEntry where
  content : List Char
  priority : PlanPriority
  status : PlanEntryStatus
  deriving DecidableEq, Repr

/-- Source `Plan` (`src/types.ts`). -/
structure Plan where
  entries : List PlanEntry
  deriving DecidableEq, Repr

/-- The session's tool-call map, insertion ordered as a JS `Map`. -/
def ToolMap := List (List Char × ToolCallState)

instance : DecidableEq ToolMap := inferInstanceAs (DecidableEq (List _))

instance : Repr ToolMap := inferInstanceAs (Repr (List _))

/-- JS `Map.get`. -/
def mapGet (m : ToolMap) (k : List Char) : Option ToolCallState :=
  match m with
  | [] => none
  | (k0, v) :: rest => if k0 = k then some v else mapGet rest k

/-- JS `Map.set`: replace in place when the key exists, append otherwise. -/
def mapSet (m : ToolMap) (k : List Char) (v : ToolCallState) : ToolMap :=
  match m with
  | [] => [(k, v)]
  | (k0, v0) :: rest => if k0 = k then (k0, v) :: rest else (k0, v0) :: mapSet rest k v

/-- In-place status mutation of the entry at a key, as
`state.status = update.status` acts on the object stored in the map; a
missing key is a silent no-op (the optional-chaining `get`). -/
def mapSetStatus (m : ToolMap) (k status : List Char) : ToolMap :=
  match m with
  | [] => []
  | (k0, v0) :: rest =>
    if k0 = k then (k0, { v0 with status := status }) :: rest
    else (k0, v0) :: mapSetStatus rest k status

/-- Source `SessionState` (`src/types.ts`), restricted to the fields the
orchestrator logic under verification reads or writes. -/
structure SessionState where
  id : List Char
  workingDir : List Char
  files : List (List Char) := []
  currentMode : List Char := str "code"
  lastPromptText : Option (List Char) := none
  cancelled : Option Bool := none
  currentPlan : Option Plan := none
  activeToolCalls : ToolMap := []
  deriving DecidableEq, Repr

/-- Protocol content blocks as far as `prompt` discriminates them: the
union tag plus the URI payload the validator inspects. -/
inductive ContentBlock
  | text (content : List Char)
  | image
  | audio
  | resourceLink (uri : List Char)
  | resource (uri : List Char)
  deriving DecidableEq, Repr

/-- The `type` tag of a content block, as used in the error message. -/
def blockTypeName : ContentBlock → List Char
  | .text _ => str "text"
  | .image => str "image"
  | .audio => str "audio"
  | .resourceLink _ => str "resource_link"
  | .resource _ => str "resource"

/-- Whether a block survives the supported-kind filter of
`validateContentBlocks` (`src/acp-agent.ts:597`). -/
def isSupportedBlock : ContentBlock → Bool
  | .text _ => true
  | .resource _ => true
  | .resourceLink _ => true
  | _ => false

/-- The per-block URI check loop of `validateContentBlocks`
(`src/acp-agent.ts:609`): first offending block wins. -/
def firstUriError : List ContentBlock → Option (List Char)
  | [] => none
  | .resourceLink uri :: rest =>
    if jsTrim uri = [] then some (str "Resource link blocks must include a non-empty URI")
    else firstUriError rest
  | .resource uri :: rest =>
    if jsTrim uri = [] then some (str "Embedded resource blocks must include a non-empty URI")
    else firstUriError rest
  | _ :: rest => firstUriError rest

/-- Source `validateContentBlocks` (`src/acp-agent.ts:597`): an unsupported
kind fails first with the joined list of offending type tags; then each
resource or resource-link block must carry a non-empty URI. `none` means
no exception was thrown. -/
def validateContentBlocks (blocks : List ContentBlock) : Option (List Char) :=
  let unsupportedBlocks := blocks.filter (fun b => !isSupportedBlock b)
  if unsupportedBlocks ≠ [] then
    some (str "Unsupported content types in prompt: " ++
      joinWith (str ", ") (unsupportedBlocks.map blockTypeName))
  else firstUriError blocks

/-- Result of the opening phase of `prompt` (`src/acp-agent.ts:84-116`):
the session after the in-place mutations, the subprocess commands issued
so far, and the exception, if one was thrown.  The source mutates
`session.cancelled` and `session.currentPlan` first, then calls
`validateContentBlocks` (which may throw, leaving the mutations in
place), then derives `promptText` and stores it; no `aiderProcess`
method is called anywhere in this span, so the command trace is empty
whether or not validation throws. -/
structure PromptPhaseResult where
  session : SessionState
  sentCommands : List (List Char)
  thrown : Option (List Char)
  deriving DecidableEq, Repr

/-- The `promptText` computation (`src/acp-agent.ts:107`): trim each text
block, drop empties, join with blanks, trim. -/
def promptTextOf (blocks : List ContentBlock) : List Char :=
  jsTrim (joinWith (str " ")
    (((blocks.filterMap (fun b => match b with | .text t => some t | _ => none)).map
      jsTrim).filter (· ≠ [])))

/-- Opening phase of `AiderAcpAgent.prompt` (`src/acp-agent.ts:84-116`):
clear the cancellation state and the plan for the new turn, then
validate the content blocks (aborting on error), then record the prompt
text. -/
def promptValidationPhase (session : SessionState) (blocks : List ContentBlock) :
    PromptPhaseResult :=
  let session := { session with cancelled := some false, currentPlan := none }
  match validateContentBlocks blocks with
  | some err => ⟨session, [], some err⟩
  | none => ⟨{ session with lastPromptText := some (promptTextOf blocks) }, [], none⟩

/-! ## Tool-call lifecycle of the data listener (`src/acp-agent.ts:326`) -/

/-- Client notifications emitted by the tool-call lifecycle. -/
inductive ClientEvent
  | toolCallStart (toolCallId : List Char) (title : List Char) (status : List Char)
  | toolCallUpdate (toolCallId : List Char) (status : List Char)
  deriving DecidableEq, Repr

/-- The generated tool-call id `edit_<now>_<i>` (`src/acp-agent.ts:330`). -/
def toolCallIdFor (now i : Nat) : List Char :=
  str "edit_" ++ (Nat.repr now).data ++ str "_" ++ (Nat.repr i).data

/-- Source `startToolCall` (`src/acp-agent.ts:642`): insert an
`in_progress` entry into the session's tool-call map and notify the
client. -/
def startToolCall (m : ToolMap) (tid title : List Char) (now : Nat) :
    ToolMap × ClientEvent :=
  (mapSet m tid ⟨tid, str "edit", str "in_progress", now⟩,
   .toolCallStart tid title (str "in_progress"))

/-- Source `completeToolCall` (`src/acp-agent.ts:673`): notify the client,
then mutate the stored entry's status in place. -/
def completeToolCall (m : ToolMap) (tid status : List Char) :
    ToolMap × ClientEvent :=
  (mapSetStatus m tid status, .toolCallUpdate tid status)

/-- The edit-block loop of the `data` listener (`src/acp-agent.ts:326-344`):
for the i-th ACP diff of the chunk, a tool call is started
(`status = in_progress`) and immediately completed
(`status = completed`).  `now` stands for the `Date.now()` stamp of the
chunk. -/
def processEditDiffs (now : Nat) : List ACPDiff → Nat → ToolMap → ToolMap × List ClientEvent
  | [], _, m => (m, [])
  | d :: rest, i, m =>
    let tid := toolCallIdFor now i
    let (m1, e1) := startToolCall m tid (str "Editing " ++ d.path) now
    let (m2, e2) := completeToolCall m1 tid (str "completed")
    let (m3, es) := processEditDiffs now rest (i + 1) m2
    (m3, e1 :: e2 :: es)

/-- The tool-call ids generated for a chunk of `n` edit diffs. -/
def chunkToolCallIds (now n : Nat) : List (List Char) :=
  (List.range n).map (toolCallIdFor now)

/-- The path property asserted by the spec's `EditBlock.path` invariant:
non-empty and free of fence/diff-marker syntax (the three fence or marker
substrings, a run of three equals signs, a leading sign). -/
def pathMarkerFree (path : List Char) : Bool :=
  decide (path ≠ []) &&
  !hasSub (str "```") path && !hasSub (str "<<<") path &&
  !hasSub (str ">>>") path && !hasSub (str "===") path &&
  !strStartsWith (str "-") path && !strStartsWith (str "+") path

/-- Encoding of a list of body lines as raw text, each line terminated by
a newline (used to state theorems about symbolic multi-line inputs). -/
def encodeLines (bs : List (List Char)) : List Char :=
  (bs.map (· ++ ['\n'])).flatten

/-- A raw input consisting of a path line, an unlabeled open fence, the
given body lines and a close fence. -/
def pathFenceInput (p : List Char) (bs : List (List Char)) : List Char :=
  (p ++ ['\n']) ++ ((str "```" ++ ['\n']) ++ (encodeLines bs ++ str "```"))

/-! # Theorems

## C1: segmentation losslessly covers the input -/

lemma flatten_splitPreservingNewlinesAux (l acc : List Char) :
    (splitPreservingNewlinesAux acc l).flatten = acc.reverse ++ l := by
  induction l generalizing acc with
  | nil =>
    by_cases h : acc = [] <;> simp [splitPreservingNewlinesAux, h]
  | cons c cs ih =>
    by_cases h : c = '\n'
    · subst h
      simp [splitPreservingNewlinesAux, ih]
    · simp [splitPreservingNewlinesAux, h, ih]

lemma flatten_splitPreservingNewlines (l : List Char) :
    (splitPreservingNewlines l).flatten = l := by
  simpa using flatten_splitPreservingNewlinesAux l []

lemma tokenize_texts (output : List Char) :
    (tokenize output).map Tok.text = splitPreservingNewlines output := by
  simp [tokenize, List.map_map]
  exact List.map_id _

lemma takeWhile_of_dropWhile_nil {p : Tok → Bool} {l : List Tok}
    (h : l.dropWhile p = []) : l.takeWhile p = l :=
  List.takeWhile_eq_self_iff.mpr (List.dropWhile_eq_nil_iff.mp h)

lemma segGo_texts : ∀ (fuel : Nat) (ts : List Tok), ts.length ≤ fuel →
    ((segGo fuel ts).map segText).flatten = (ts.map Tok.text).flatten := by
  intro fuel
  induction fuel with
  | zero =>
    intro ts h
    have : ts = [] := List.length_eq_zero.mp (Nat.le_zero.mp h)
    subst this
    simp [segGo]
  | succ fuel ih =>
    intro ts h
    match ts with
    | [] => simp [segGo]
    | t :: rest =>
      have hrest : rest.length ≤ fuel := Nat.le_of_succ_le_succ (by simpa using h)
      by_cases hk : t.kind = TokKind.line
      · simp [segGo, hk, segText, ih rest hrest]
      · rcases hdrop : rest.dropWhile isLineTok with _ | ⟨c, rest2⟩
        · have htake := takeWhile_of_dropWhile_nil hdrop
          simp [segGo, hk, hdrop, htake, segText]
        · have hsplit : rest.takeWhile isLineTok ++ (c :: rest2) = rest := by
            rw [← hdrop]
            exact List.takeWhile_append_dropWhile ..
          have hlen2 : rest2.length ≤ fuel := by
            have hdl : (rest.dropWhile isLineTok).length ≤ rest.length :=
              (List.dropWhile_sublist _).length_le
            rw [hdrop] at hdl
            simp only [List.length_cons] at hdl
            omega
          calc ((segGo (fuel + 1) (t :: rest)).map segText).flatten
              = t.text ++ (((rest.takeWhile isLineTok).map Tok.text).flatten ++
                  (c.text ++ ((segGo fuel rest2).map segText).flatten)) := by
                simp [segGo, hk, hdrop, segText, List.append_assoc]
            _ = t.text ++ (((rest.takeWhile isLineTok).map Tok.text).flatten ++
                  (c.text ++ ((rest2.map Tok.text)).flatten)) := by
                rw [ih rest2 hlen2]
            _ = ((t :: rest).map Tok.text).flatten := by
                conv_rhs => rw [← hsplit]
                simp [List.append_assoc]

/-- C1: for every input, concatenating the raw text of the segments
produced by segmentation, in order (line text; open fence, body and close
fence of a complete block; open fence and trailing lines of an incomplete
block), reconstructs the input exactly, and the same holds for the
fallback per-line re-split. -/
theorem c1_segmentation_lossless (input : List Char) :
    ((parseSegmentsFromOutput input).map segText).flatten = input ∧
    ((fallbackToLineSegments input).map segText).flatten = input := by
  constructor
  · unfold parseSegmentsFromOutput
    by_cases h : input = []
    · simp [h]
    · rw [if_neg h, segGo_texts _ _ le_rfl, tokenize_texts,
        flatten_splitPreservingNewlines]
  · unfold fallbackToLineSegments
    rw [List.map_map]
    have hid : (segText ∘ Segment.line) = fun x : List Char => x := by
      funext x
      rfl
    rw [hid]
    simpa using flatten_splitPreservingNewlines input

/-! ## C10: conversion of edit blocks to ACP diffs -/

/-- C10: `convertEditBlocksToACPDiffs` maps each edit block, preserving
length and order, to a diff record with the same path and `newText`, the
record's `oldText` being null whenever the block's `oldText` is absent or
empty; in particular a diff-format block with an empty search section
converts identically to the whole-file replacement with the same path and
new text. -/
theorem c10_convert_edit_blocks (blocks : List EditBlock) :
    (convertEditBlocksToACPDiffs blocks).length = blocks.length ∧
    (∀ (i : Nat) (b : EditBlock), blocks[i]? = some b →
      ∃ d : ACPDiff, (convertEditBlocksToACPDiffs blocks)[i]? = some d ∧
        d.path = b.path ∧ d.newText = b.newText ∧
        ((b.oldText = none ∨ b.oldText = some []) → d.oldText = none)) ∧
    (∀ path newText : List Char,
      convertEditBlocksToACPDiffs [⟨.diff, path, some [], newText⟩] =
      convertEditBlocksToACPDiffs [⟨.whole, path, none, newText⟩]) := by
  refine ⟨by simp [convertEditBlocksToACPDiffs], ?_, ?_⟩
  · intro i b hib
    refine ⟨{ path := b.path
              oldText := match b.oldText with
                | some t => if t = [] then none else some t
                | none => none
              newText := b.newText }, ?_, rfl, rfl, ?_⟩
    · simp [convertEditBlocksToACPDiffs, List.getElem?_map, hib]
    · rintro (h | h) <;> simp [h]
  · intro path newText
    simp [convertEditBlocksToACPDiffs]

/-- Witness for C10 at a concrete block list. -/
theorem c10_convert_edit_blocks_witness :
    ∃ d : ACPDiff,
      (convertEditBlocksToACPDiffs [⟨.whole, str "a.py", none, str "x"⟩])[0]? = some d ∧
      d.path = str "a.py" ∧ d.newText = str "x" ∧
      (((⟨.whole, str "a.py", none, str "x"⟩ : EditBlock).oldText = none ∨
        (⟨.whole, str "a.py", none, str "x"⟩ : EditBlock).oldText = some []) →
        d.oldText = none) :=
  (c10_convert_edit_blocks [⟨.whole, str "a.py", none, str "x"⟩]).2.1 0
    ⟨.whole, str "a.py", none, str "x"⟩ rfl

/-! ## C9: the substring diff disqualifies a candidate path -/

/-- C9: any candidate path containing the substring diff is rejected by
`isValidFilePath`, so a path line with such a path followed by a fenced
body yields no edit block from the path-plus-fence extractor and the
fence is reported as a plain code block. -/
theorem c9_diff_substring_rejected :
    (∀ path : List Char, hasSub (str "diff") path = true → isValidFilePath path = false) ∧
    (parseAiderOutput (str "render-diff.ts\n```\nhello\n```")).editBlocks = [] ∧
    (parseAiderOutput (str "render-diff.ts\n```\nhello\n```")).codeBlocks =
      [⟨str "unknown", str "hello"⟩] := by
  refine ⟨?_, by decide, by decide⟩
  intro path h
  unfold isValidFilePath
  by_cases hp : path = []
  · simp [hp]
  · rw [if_neg hp, if_pos]
    simp [h]

/-- Witness for C9 at the concrete path of the example. -/
theorem c9_diff_substring_rejected_witness :
    isValidFilePath (str "render-diff.ts") = false :=
  c9_diff_substring_rejected.1 (str "render-diff.ts") (by decide)

/-! ## C3: prompt validation failure

The claim holds for the error-before-any-command part, but the source
resets `session.cancelled` and `session.currentPlan` before calling
`validateContentBlocks` (`src/acp-agent.ts:95-99`), so a failed call does
not leave them unchanged: it clears them. -/

/-- C3 counterexample: for a session whose turn was cancelled and that
still holds a plan, a `prompt` call carrying an image block throws the
unsupported-content error, yet the session's `cancelled` flag and
`currentPlan` have been cleared by the failed call — the claim's
"left unchanged by the failed call" is false on the code. -/
theorem c3_validation_counterexample :
    (promptValidationPhase
        { id := str "sess_1", workingDir := str "/w", cancelled := some true,
          currentPlan := some ⟨[⟨str "Execute prompt text", .high, .pending⟩]⟩ }
        [ContentBlock.image]).thrown =
      some (str "Unsupported content types in prompt: image") ∧
    (promptValidationPhase
        { id := str "sess_1", workingDir := str "/w", cancelled := some true,
          currentPlan := some ⟨[⟨str "Execute prompt text", .high, .pending⟩]⟩ }
        [ContentBlock.image]).session.cancelled ≠ some true ∧
    (promptValidationPhase
        { id := str "sess_1", workingDir := str "/w", cancelled := some true,
          currentPlan := some ⟨[⟨str "Execute prompt text", .high, .pending⟩]⟩ }
        [ContentBlock.image]).session.currentPlan ≠
      some ⟨[⟨str "Execute prompt text", .high, .pending⟩]⟩ := by
  decide

lemma firstUriError_isSome_of_empty_uri : ∀ (blocks : List ContentBlock) (uri : List Char),
    (ContentBlock.resourceLink uri ∈ blocks ∨ ContentBlock.resource uri ∈ blocks) →
    jsTrim uri = [] → (firstUriError blocks).isSome = true := by
  intro blocks
  induction blocks with
  | nil =>
    intro uri hmem _
    rcases hmem with h | h <;> simp at h
  | cons b rest ih =>
    intro uri hmem hempty
    match b with
    | .resourceLink u =>
      by_cases hu : jsTrim u = []
      · simp [firstUriError, hu]
      · rw [show firstUriError (ContentBlock.resourceLink u :: rest) = firstUriError rest from by
          simp [firstUriError, hu]]
        apply ih uri ?_ hempty
        rcases hmem with h | h
        · rcases List.mem_cons.mp h with h2 | h2
          · injection h2 with h3
            exact absurd (h3 ▸ hempty) hu
          · exact Or.inl h2
        · rcases List.mem_cons.mp h with h2 | h2
          · exact absurd h2 (by simp)
          · exact Or.inr h2
    | .resource u =>
      by_cases hu : jsTrim u = []
      · simp [firstUriError, hu]
      · rw [show firstUriError (ContentBlock.resource u :: rest) = firstUriError rest from by
          simp [firstUriError, hu]]
        apply ih uri ?_ hempty
        rcases hmem with h | h
        · rcases List.mem_cons.mp h with h2 | h2
          · exact absurd h2 (by simp)
          · exact Or.inl h2
        · rcases List.mem_cons.mp h with h2 | h2
          · injection h2 with h3
            exact absurd (h3 ▸ hempty) hu
          · exact Or.inr h2
    | .text t =>
      rw [show firstUriError (ContentBlock.text t :: rest) = firstUriError rest from by
        simp [firstUriError]]
      apply ih uri ?_ hempty
      rcases hmem with h | h
      · rcases List.mem_cons.mp h with h2 | h2
        · exact absurd h2 (by simp)
        · exact Or.inl h2
      · rcases List.mem_cons.mp h with h2 | h2
        · exact absurd h2 (by simp)
        · exact Or.inr h2
    | .image =>
      rw [show firstUriError (ContentBlock.image :: rest) = firstUriError rest from by
        simp [firstUriError]]
      apply ih uri ?_ hempty
      rcases hmem with h | h
      · rcases List.mem_cons.mp h with h2 | h2
        · exact absurd h2 (by simp)
        · exact Or.inl h2
      · rcases List.mem_cons.mp h with h2 | h2
        · exact absurd h2 (by simp)
        · exact Or.inr h2
    | .audio =>
      rw [show firstUriError (ContentBlock.audio :: rest) = firstUriError rest from by
        simp [firstUriError]]
      apply ih uri ?_ hempty
      rcases hmem with h | h
      · rcases List.mem_cons.mp h with h2 | h2
        · exact absurd h2 (by simp)
        · exact Or.inl h2
      · rcases List.mem_cons.mp h with h2 | h2
        · exact absurd h2 (by simp)
        · exact Or.inr h2

lemma validateContentBlocks_isSome {blocks : List ContentBlock}
    (h : (∃ b ∈ blocks, isSupportedBlock b = false) ∨
         ∃ uri, (ContentBlock.resourceLink uri ∈ blocks ∨
                 ContentBlock.resource uri ∈ blocks) ∧ jsTrim uri = []) :
    (validateContentBlocks blocks).isSome = true := by
  unfold validateContentBlocks
  by_cases hfil : blocks.filter (fun b => !isSupportedBlock b) = []
  · rcases h with ⟨b, hb, hsupp⟩ | ⟨uri, hmem, hempty⟩
    · exfalso
      have hmem2 : b ∈ blocks.filter (fun b => !isSupportedBlock b) :=
        List.mem_filter.mpr ⟨hb, by simp [hsupp]⟩
      rw [hfil] at hmem2
      simp at hmem2
    · simp only [hfil, if_neg (by simp : ¬ ([] : List ContentBlock) ≠ [])]
      exact firstUriError_isSome_of_empty_uri _ _ hmem hempty
  · simp [hfil]

/-- C3 (amended): if any content block has an unsupported kind, or a
resource/resource-link block carries an empty URI, then the prompt call
fails with a descriptive error before any command is sent to the
subprocess; however the reset precedes validation in the source, so the
failed call leaves the session with `cancelled` cleared to false and
`currentPlan` cleared, while `lastPromptText` is untouched. -/
theorem c3_validation_failure (session : SessionState) (blocks : List ContentBlock)
    (h : (∃ b ∈ blocks, isSupportedBlock b = false) ∨
         ∃ uri, (ContentBlock.resourceLink uri ∈ blocks ∨
                 ContentBlock.resource uri ∈ blocks) ∧ jsTrim uri = []) :
    (promptValidationPhase session blocks).thrown.isSome = true ∧
    (promptValidationPhase session blocks).sentCommands = [] ∧
    (promptValidationPhase session blocks).session.cancelled = some false ∧
    (promptValidationPhase session blocks).session.currentPlan = none ∧
    (promptValidationPhase session blocks).session.lastPromptText = session.lastPromptText := by
  have hval := validateContentBlocks_isSome h
  unfold promptValidationPhase
  rcases hsome : validateContentBlocks blocks with _ | err
  · rw [hsome] at hval
    simp at hval
  · simp [hsome]

/-- Witness for C3 (amended) at a concrete session and block list. -/
theorem c3_validation_failure_witness :
    (promptValidationPhase { id := str "s", workingDir := str "/w" }
        [ContentBlock.audio]).thrown.isSome = true ∧
    (promptValidationPhase { id := str "s", workingDir := str "/w" }
        [ContentBlock.audio]).sentCommands = [] ∧
    (promptValidationPhase { id := str "s", workingDir := str "/w" }
        [ContentBlock.audio]).session.cancelled = some false ∧
    (promptValidationPhase { id := str "s", workingDir := str "/w" }
        [ContentBlock.audio]).session.currentPlan = none ∧
    (promptValidationPhase { id := str "s", workingDir := str "/w" }
        [ContentBlock.audio]).session.lastPromptText =
      ({ id := str "s", workingDir := str "/w" } : SessionState).lastPromptText :=
  c3_validation_failure { id := str "s", workingDir := str "/w" } [ContentBlock.audio]
    (Or.inl ⟨ContentBlock.audio, by decide, by decide⟩)

/-! ## C8: tool-call lifecycle of edit blocks -/

lemma mapGet_mapSet_self (m : ToolMap) (k : List Char) (v : ToolCallState) :
    mapGet (mapSet m k v) k = some v := by
  induction m with
  | nil => simp [mapSet, mapGet]
  | cons kv rest ih =>
    obtain ⟨k0, v0⟩ := kv
    by_cases h : k0 = k
    · simp [mapSet, mapGet, h]
    · simp [mapSet, mapGet, h, ih]

lemma mapGet_mapSet_ne (m : ToolMap) {k k2 : List Char} (v : ToolCallState)
    (h : k2 ≠ k) : mapGet (mapSet m k v) k2 = mapGet m k2 := by
  have h3 : ¬ k = k2 := fun hh => h hh.symm
  induction m with
  | nil => simp [mapSet, mapGet, h3]
  | cons kv rest ih =>
    obtain ⟨k0, v0⟩ := kv
    by_cases h0 : k0 = k
    · subst h0
      simp [mapSet, mapGet, h3]
    · simp only [mapSet, if_neg h0]
      by_cases h2 : k0 = k2
      · simp [mapGet, h2]
      · simp [mapGet, h2, ih]

lemma mapGet_mapSetStatus_self {m : ToolMap} {k : List Char} {v : ToolCallState}
    (hget : mapGet m k = some v) (status : List Char) :
    mapGet (mapSetStatus m k status) k = some { v with status := status } := by
  induction m with
  | nil => simp [mapGet] at hget
  | cons kv rest ih =>
    obtain ⟨k0, v0⟩ := kv
    by_cases h : k0 = k
    · subst h
      simp [mapGet] at hget
      subst hget
      simp [mapSetStatus, mapGet]
    · simp only [mapGet, if_neg h] at hget
      simp [mapSetStatus, mapGet, h, ih hget]

lemma mapGet_mapSetStatus_ne (m : ToolMap) {k k2 : List Char} (status : List Char)
    (h : k2 ≠ k) : mapGet (mapSetStatus m k status) k2 = mapGet m k2 := by
  have h3 : ¬ k = k2 := fun hh => h hh.symm
  induction m with
  | nil => simp [mapSetStatus]
  | cons kv rest ih =>
    obtain ⟨k0, v0⟩ := kv
    by_cases h0 : k0 = k
    · subst h0
      simp [mapSetStatus, mapGet, h3]
    · simp only [mapSetStatus, if_neg h0]
      by_cases h2 : k0 = k2
      · simp [mapGet, h2]
      · simp [mapGet, h2, ih]

/-- Any entry already completed stays completed through the chunk loop. -/
lemma processEditDiffs_preserves_completed (now : Nat) :
    ∀ (diffs : List ACPDiff) (i : Nat) (m : ToolMap) (k : List Char) (v : ToolCallState),
    mapGet m k = some v → v.status = str "completed" →
    ∃ v2, mapGet (processEditDiffs now diffs i m).1 k = some v2 ∧
      v2.status = str "completed" := by
  intro diffs
  induction diffs with
  | nil =>
    intro i m k v hget hstat
    exact ⟨v, by simpa [processEditDiffs] using hget, hstat⟩
  | cons d rest ih =>
    intro i m k v hget hstat
    have hstep : (processEditDiffs now (d :: rest) i m).1 =
        (processEditDiffs now rest (i + 1)
          (mapSetStatus (mapSet m (toolCallIdFor now i)
            ⟨toolCallIdFor now i, str "edit", str "in_progress", now⟩)
            (toolCallIdFor now i) (str "completed"))).1 := by
      simp [processEditDiffs, startToolCall, completeToolCall]
    rw [hstep]
    by_cases hk : k = toolCallIdFor now i
    · subst hk
      have h1 := mapGet_mapSet_self m (toolCallIdFor now i)
        ⟨toolCallIdFor now i, str "edit", str "in_progress", now⟩
      have h2 := mapGet_mapSetStatus_self h1 (str "completed")
      exact ih (i + 1) _ (toolCallIdFor now i) _ h2 rfl
    · have h1 := mapGet_mapSet_ne m
        (⟨toolCallIdFor now i, str "edit", str "in_progress", now⟩ : ToolCallState) hk
      have h2 := mapGet_mapSetStatus_ne
        (mapSet m (toolCallIdFor now i)
          ⟨toolCallIdFor now i, str "edit", str "in_progress", now⟩)
        (str "completed") hk
      rw [h1] at h2
      exact ih (i + 1) _ k v (by rw [h2]; exact hget) hstat

/-- After the chunk loop, the id generated for every processed edit block
maps to a completed entry. -/
lemma processEditDiffs_all_completed (now : Nat) :
    ∀ (diffs : List ACPDiff) (b : Nat) (m : ToolMap) (i : Nat),
    b ≤ i → i < b + diffs.length →
    ∃ v, mapGet (processEditDiffs now diffs b m).1 (toolCallIdFor now i) = some v ∧
      v.status = str "completed" := by
  intro diffs
  induction diffs with
  | nil =>
    intro b m i hbi hlt
    simp at hlt
    omega
  | cons d rest ih =>
    intro b m i hbi hlt
    have hstep : (processEditDiffs now (d :: rest) b m).1 =
        (processEditDiffs now rest (b + 1)
          (mapSetStatus (mapSet m (toolCallIdFor now b)
            ⟨toolCallIdFor now b, str "edit", str "in_progress", now⟩)
            (toolCallIdFor now b) (str "completed"))).1 := by
      simp [processEditDiffs, startToolCall, completeToolCall]
    rw [hstep]
    by_cases hib : i = b
    · subst hib
      have h1 := mapGet_mapSet_self m (toolCallIdFor now i)
        ⟨toolCallIdFor now i, str "edit", str "in_progress", now⟩
      have h2 := mapGet_mapSetStatus_self h1 (str "completed")
      exact processEditDiffs_preserves_completed now rest (i + 1) _ _ _ h2 rfl
    · have : b + 1 ≤ i := by omega
      exact ih (b + 1) _ i this (by simp at hlt; omega)

/-- Every update event in the trace of the chunk loop is preceded by a
start event for the same tool-call id. -/
lemma processEditDiffs_update_after_start (now : Nat) :
    ∀ (diffs : List ACPDiff) (b : Nat) (m : ToolMap) (j : Nat) (tid s : List Char),
    (processEditDiffs now diffs b m).2[j]? = some (ClientEvent.toolCallUpdate tid s) →
    ∃ k t s2, k < j ∧
      (processEditDiffs now diffs b m).2[k]? = some (ClientEvent.toolCallStart tid t s2) := by
  intro diffs
  induction diffs with
  | nil =>
    intro b m j tid s hj
    simp [processEditDiffs] at hj
  | cons d rest ih =>
    intro b m j tid s hj
    have hstep : (processEditDiffs now (d :: rest) b m).2 =
        ClientEvent.toolCallStart (toolCallIdFor now b) (str "Editing " ++ d.path)
          (str "in_progress") ::
        ClientEvent.toolCallUpdate (toolCallIdFor now b) (str "completed") ::
        (processEditDiffs now rest (b + 1)
          (mapSetStatus (mapSet m (toolCallIdFor now b)
            ⟨toolCallIdFor now b, str "edit", str "in_progress", now⟩)
            (toolCallIdFor now b) (str "completed"))).2 := by
      simp [processEditDiffs, startToolCall, completeToolCall]
    rw [hstep] at hj ⊢
    match j with
    | 0 => simp at hj
    | 1 =>
      simp at hj
      exact ⟨0, str "Editing " ++ d.path, str "in_progress",
        by omega, by simp [hj.1]⟩
    | n + 2 =>
      simp only [List.getElem?_cons_succ] at hj
      obtain ⟨k, t, s2, hk, hget⟩ := ih (b + 1) _ n tid s hj
      exact ⟨k + 2, t, s2, by omega, by simpa using hget⟩

/-- C8: for every edit block detected in a data chunk, a tool-call entry
with status in-progress is inserted into the session's tool-call map and
the same entry is immediately updated to completed; every update event in
the emitted trace is preceded by a start event for the same id, and after
the chunk no tool call originating from one of the chunk's edit blocks is
left in-progress — its map entry is completed. -/
theorem c8_tool_call_lifecycle (now : Nat) (diffs : List ACPDiff) (m : ToolMap) :
    (∀ i, i < diffs.length →
      ∃ v, mapGet (processEditDiffs now diffs 0 m).1 (toolCallIdFor now i) = some v ∧
        v.status = str "completed") ∧
    (∀ (j : Nat) (tid s : List Char), (processEditDiffs now diffs 0 m).2[j]? =
        some (ClientEvent.toolCallUpdate tid s) →
      ∃ (k : Nat) (t s2 : List Char), k < j ∧
        (processEditDiffs now diffs 0 m).2[k]? =
          some (ClientEvent.toolCallStart tid t s2)) := by
  constructor
  · intro i hi
    exact processEditDiffs_all_completed now diffs 0 m i (Nat.zero_le i) (by omega)
  · intro j tid s hj
    exact processEditDiffs_update_after_start now diffs 0 m j tid s hj

/-- Witness for C8 at a concrete chunk of one edit block. -/
theorem c8_tool_call_lifecycle_witness :
    ∃ v, mapGet (processEditDiffs 7 [⟨str "a.py", none, str "x"⟩] 0 []).1
        (toolCallIdFor 7 0) = some v ∧ v.status = str "completed" :=
  (c8_tool_call_lifecycle 7 [⟨str "a.py", none, str "x"⟩] []).1 0 (by decide)

/-! ## C2: the edit-block path invariant

The invariant holds for the formats whose path passes `isValidFilePath`
(whole, diff, including the diff-fenced route, which emits format diff),
but `parseUdiffFormat` takes its path from a diff header line without any
validation, so a udiff edit block can carry marker syntax in its path. -/

/-- C2 counterexample: a fenced block labeled diff whose header line is
minus minus minus space followed by three equals signs produces a udiff
edit block whose path is exactly three equals signs — non-empty but
containing marker syntax, refuting the claimed invariant for udiff. -/
theorem c2_path_invariant_counterexample :
    (parseAiderOutput (str "```diff\n--- ===\n```")).editBlocks =
      [⟨EditFormat.udiff, str "===", some [], []⟩] ∧
    pathMarkerFree (str "===") = false ∧
    hasSub (str "===") (str "===") = true := by
  decide

lemma isValid_of_isPotential {p : List Char} (h : isPotentialFilePath p = true) :
    isValidFilePath p = true := by
  unfold isPotentialFilePath at h
  split at h
  · exact absurd h (by simp)
  · exact h

lemma pathMarkerFree_of_valid {p : List Char} (h : isValidFilePath p = true) :
    pathMarkerFree p = true := by
  unfold isValidFilePath at h
  by_cases hp : p = []
  · simp [hp] at h
  · rw [if_neg hp] at h
    by_cases hc : (hasSub (str "```") p || hasSub (str "<<<") p ||
        hasSub (str ">>>") p || hasSub (str "===") p ||
        hasSub (str "diff") p ||
        strStartsWith (str "-") p || strStartsWith (str "+") p) = true
    · rw [if_pos hc] at h
      exact absurd h (by simp)
    · simp only [Bool.or_eq_true, not_or, Bool.not_eq_true] at hc
      obtain ⟨⟨⟨⟨⟨⟨h1, h2⟩, h3⟩, h4⟩, h5⟩, h6⟩, h7⟩ := hc
      simp [pathMarkerFree, hp, h1, h2, h3, h4, h6, h7]

lemma valid_path_nonempty {p : List Char} (h : isValidFilePath p = true) : p ≠ [] := by
  unfold isValidFilePath at h
  by_cases hp : p = []
  · simp [hp] at h
  · exact hp

lemma parseDiffFormat_shape {path content : List Char} {b : EditBlock}
    (h : parseDiffFormat path content = some b) :
    b.path = path ∧ b.format = EditFormat.diff := by
  unfold parseDiffFormat at h
  rcases hsrb : extractSearchReplaceBlocks content with _ | ⟨fst, more⟩ <;> rw [hsrb] at h
  · simp at h
  · rw [Option.some_inj] at h
    subst h
    exact ⟨rfl, rfl⟩

lemma buildEditBlock_shape {path : List Char} {lines : List (List Char)} {b : EditBlock}
    (h : buildEditBlockFromPathAndCode path lines = some b) :
    b.path = path ∧ (b.format = EditFormat.whole ∨ b.format = EditFormat.diff) := by
  unfold buildEditBlockFromPathAndCode at h
  dsimp only at h
  split at h
  · have h2 := parseDiffFormat_shape h
    exact ⟨h2.1, Or.inr h2.2⟩
  · rw [Option.some_inj] at h
    subst h
    exact ⟨rfl, Or.inl rfl⟩

lemma parseUdiffFormat_shape {content : List Char} {b : EditBlock}
    (h : parseUdiffFormat content = some b) :
    b.format = EditFormat.udiff ∧ b.path ≠ [] := by
  unfold parseUdiffFormat at h
  dsimp only at h
  split at h
  · simp at h
  · next hne =>
    rw [Option.some_inj] at h
    subst h
    exact ⟨rfl, hne⟩

/-- The property of an edit block needed for the amended C2. -/
def editPathOk (b : EditBlock) : Prop :=
  b.path ≠ [] ∧ ((b.format = EditFormat.whole ∨ b.format = EditFormat.diff) →
    pathMarkerFree b.path = true)

lemma handleStandalone_editBlocks_inv {o : List Char} {body : List (List Char)}
    {eb : List EditBlock} {cb : List CodeBlock} {b : EditBlock}
    (hb : b ∈ (handleStandaloneCodeSegment o body eb cb).1) :
    b ∈ eb ∨ editPathOk b := by
  unfold handleStandaloneCodeSegment at hb
  dsimp only at hb
  split at hb
  · next eb2 heq =>
    simp only at hb
    rcases List.mem_append.mp hb with h | h
    · exact Or.inl h
    · right
      have heq2 : parseUdiffFormat
          (joinWith (str "\n") (body.map trimTrailingNewline)) = some eb2 := by
        by_cases hlab : (asciiLowerStr (extractFenceLabel o) = str "diff" ∨
            asciiLowerStr (extractFenceLabel o) = str "udiff")
        · rwa [if_pos hlab] at heq
        · rw [if_neg hlab] at heq
          simp at heq
      have h3 := parseUdiffFormat_shape heq2
      have hbe : b = eb2 := by simpa using h
      subst hbe
      exact ⟨h3.2, by simp [h3.1]⟩
  · split at hb
    · next eb2 heq =>
      simp only at hb
      rcases List.mem_append.mp hb with h | h
      · exact Or.inl h
      · right
        have hbe : b = eb2 := by simpa using h
        subst hbe
        rcases hlines : body.map trimTrailingNewline with _ | ⟨first, restLines⟩ <;>
          rw [hlines] at heq
        · simp at heq
        · dsimp only at heq
          by_cases hcond : (isPotentialFilePath (jsTrim first) &&
              hasSub searchMarker (joinWith (str "\n") (first :: restLines))) = true
          · rw [if_pos hcond] at heq
            have hvalid := isValid_of_isPotential (by
              have h9 := hcond
              simp only [Bool.and_eq_true] at h9
              exact h9.1)
            have heq2 : parseDiffFormat (jsTrim first)
                (joinWith (str "\n") restLines) = some b := by
              unfold parseDiffFencedFormat at heq
              exact heq
            have h2 := parseDiffFormat_shape heq2
            refine ⟨h2.1 ▸ valid_path_nonempty hvalid, fun _ => ?_⟩
            rw [h2.1]
            exact pathMarkerFree_of_valid hvalid
          · rw [if_neg hcond] at heq
            simp at heq
    · simp only at hb
      exact Or.inl hb

lemma lineRestStep_editBlocks (nl tl : List Char) (st : ParseState) :
    (lineRestStep nl tl st).editBlocks = st.editBlocks := by
  unfold lineRestStep
  split
  · rfl
  · dsimp only
    split
    · rfl
    · split <;> split <;> rfl

lemma psGo_editBlocks_inv : ∀ (fuel : Nat) (segs : List Segment) (st : ParseState),
    (∀ b ∈ st.editBlocks, editPathOk b) →
    ∀ b ∈ (psGo fuel segs st).editBlocks, editPathOk b := by
  intro fuel
  induction fuel with
  | zero =>
    intro segs st hst b hb
    match segs with
    | [] => exact hst b (by simpa [psGo] using hb)
    | _ :: _ => exact hst b (by simpa [psGo] using hb)
  | succ fuel ih =>
    intro segs st hst b hb
    match segs with
    | [] => exact hst b (by simpa [psGo] using hb)
    | .line t :: rest =>
      simp only [psGo] at hb
      split at hb
      · rename_i prompts2 heq2
        exact ih rest
          { st with prompts := prompts2, capturingUserMessage := false }
          (fun b2 hb2 => hst b2 hb2) b hb
      · split at hb
        · rename_i o2 body2 c2 rest2
          by_cases hcond : (isPotentialFilePath (jsTrim (trimTrailingNewline t)) &&
              !isCommandEcho (trimTrailingNewline t)) = true
          · rw [if_pos hcond] at hb
            rcases hbe : buildEditBlockFromPathAndCode (jsTrim (trimTrailingNewline t)) body2
              with _ | eb <;> rw [hbe] at hb
            · exact ih _ _ (by rw [lineRestStep_editBlocks]; exact hst) b hb
            · refine ih rest2 _ ?_ b hb
              intro b2 hb2
              simp only at hb2
              rcases List.mem_append.mp hb2 with h | h
              · exact hst b2 h
              · have hb2e : b2 = eb := by simpa using h
                subst hb2e
                have hpot : isPotentialFilePath (jsTrim (trimTrailingNewline t)) = true := by
                  simp only [Bool.and_eq_true] at hcond
                  exact hcond.1
                have hvalid := isValid_of_isPotential hpot
                have h2 := buildEditBlock_shape hbe
                refine ⟨h2.1 ▸ valid_path_nonempty hvalid, fun _ => ?_⟩
                rw [h2.1]
                exact pathMarkerFree_of_valid hvalid
          · rw [if_neg hcond] at hb
            exact ih _ _ (by rw [lineRestStep_editBlocks]; exact hst) b hb
        · exact ih _ _ (by rw [lineRestStep_editBlocks]; exact hst) b hb
    | .code o body c :: rest =>
      simp only [psGo] at hb
      refine ih rest _ ?_ b hb
      intro b2 hb2
      simp only at hb2
      rcases handleStandalone_editBlocks_inv hb2 with h | h
      · exact hst b2 h
      · exact h
    | .incomplete o body :: rest =>
      simp only [psGo] at hb
      exact ih rest _ (by exact hst) b hb

/-- C2 (amended): every edit block returned by `parseAiderOutput` has a
non-empty path, and for blocks of format whole or diff (the formats built
from a validated path line) the path additionally contains no fence or
diff-marker syntax and does not start with a sign; udiff blocks are only
guaranteed a non-empty path, as the counterexample shows. -/
theorem c2_path_invariant_amended (output : List Char) (b : EditBlock)
    (hb : b ∈ (parseAiderOutput output).editBlocks) :
    b.path ≠ [] ∧ ((b.format = EditFormat.whole ∨ b.format = EditFormat.diff) →
      pathMarkerFree b.path = true) := by
  have hb2 : b ∈ (psGo (parseSegmentsFromOutput output).length
      (parseSegmentsFromOutput output) {}).editBlocks := by
    simpa [parseAiderOutput, processSegments] using hb
  exact psGo_editBlocks_inv _ _ {} (by simp) b hb2

/-- Witness for C2 (amended) at a concrete whole-file edit. -/
theorem c2_path_invariant_amended_witness :
    (⟨EditFormat.whole, str "a.py", none, str "hi"⟩ : EditBlock).path ≠ [] ∧
    (((⟨EditFormat.whole, str "a.py", none, str "hi"⟩ : EditBlock).format = EditFormat.whole ∨
      (⟨EditFormat.whole, str "a.py", none, str "hi"⟩ : EditBlock).format = EditFormat.diff) →
      pathMarkerFree (⟨EditFormat.whole, str "a.py", none, str "hi"⟩ : EditBlock).path = true) :=
  c2_path_invariant_amended (str "a.py\n```\nhi\n```")
    ⟨EditFormat.whole, str "a.py", none, str "hi"⟩ (by decide)

/-! ## Infrastructure for symbolic-input theorems -/

lemma dropWhile_eq_self_of_none {α} {p : α → Bool} {l : List α}
    (h : ∀ x ∈ l, p x = false) : l.dropWhile p = l := by
  cases l with
  | nil => rfl
  | cons a as => rw [List.dropWhile_cons_of_neg (by simp [h a (by simp)])]

lemma jsTrimStart_eq_self {p : List Char} (h : ∀ c ∈ p, isJsSpace c = false) :
    jsTrimStart p = p :=
  dropWhile_eq_self_of_none h

lemma jsTrimEnd_eq_self {p : List Char} (h : ∀ c ∈ p, isJsSpace c = false) :
    jsTrimEnd p = p := by
  unfold jsTrimEnd
  rw [dropWhile_eq_self_of_none (fun c hc => h c (List.mem_reverse.mp hc)), List.reverse_reverse]

lemma jsTrim_eq_self {p : List Char} (h : ∀ c ∈ p, isJsSpace c = false) :
    jsTrim p = p := by
  unfold jsTrim
  rw [jsTrimStart_eq_self h, jsTrimEnd_eq_self h]

lemma isPrefixOf_single_false {c : Char} {l : List Char} (h : c ∉ l) :
    List.isPrefixOf [c] l.reverse = false := by
  cases hrev : l.reverse with
  | nil => rfl
  | cons a as =>
    have ha : a ∈ l := List.mem_reverse.mp (by rw [hrev]; simp)
    have : ¬ (c == a) = true := by
      simp only [beq_iff_eq]
      exact fun hh => h (hh ▸ ha)
    simp [List.isPrefixOf, this]

lemma ttn_append_nl {p : List Char} (_hn : '\n' ∉ p) (hr : '\r' ∉ p) :
    trimTrailingNewline (p ++ ['\n']) = p := by
  unfold trimTrailingNewline
  have h1 : strEndsWith (str "\r\n") (p ++ ['\n']) = false := by
    unfold strEndsWith
    rw [show (str "\r\n").reverse = '\n' :: ['\r'] from by decide,
      List.reverse_append]
    simp only [List.reverse_singleton, List.singleton_append, List.isPrefixOf,
      List.cons_append]
    rw [show ('\n' == '\n') = true from by decide]
    simpa using isPrefixOf_single_false hr
  have h2 : strEndsWith (str "\n") (p ++ ['\n']) = true := by
    unfold strEndsWith
    rw [List.reverse_append]
    simp [List.isPrefixOf, str]
  rw [h1]
  simp only [Bool.false_eq_true, if_false, h2, Bool.true_or, if_true]
  exact List.dropLast_concat ..

lemma ttn_eq_self {p : List Char} (hn : '\n' ∉ p) (hr : '\r' ∉ p) :
    trimTrailingNewline p = p := by
  unfold trimTrailingNewline
  have h1 : strEndsWith (str "\r\n") p = false := by
    unfold strEndsWith
    rw [show (str "\r\n").reverse = ['\n', '\r'] from by decide]
    cases hrev : p.reverse with
    | nil => rfl
    | cons a as =>
      have ha : a ∈ p := List.mem_reverse.mp (by rw [hrev]; simp)
      have : ¬ ('\n' == a) = true := by
        simp only [beq_iff_eq]
        exact fun hh => hn (hh ▸ ha)
      simp [List.isPrefixOf, this]
  have h2 : strEndsWith (str "\n") p = false := by
    unfold strEndsWith
    rw [show (str "\n").reverse = ['\n'] from by decide]
    exact isPrefixOf_single_false hn
  have h3 : strEndsWith (str "\r") p = false := by
    unfold strEndsWith
    rw [show (str "\r").reverse = ['\r'] from by decide]
    exact isPrefixOf_single_false hr
  rw [h1, h2, h3]
  simp

lemma strStartsWith_self_append (a b : List Char) : strStartsWith a (a ++ b) = true := by
  unfold strStartsWith
  rw [List.isPrefixOf_iff_prefix]
  exact List.prefix_append a b

lemma hasSub_of_startsWith {needle hay : List Char} (h : strStartsWith needle hay = true) :
    hasSub needle hay = true := by
  unfold hasSub
  rw [List.any_eq_true]
  exact ⟨0, by simp, by simpa using h⟩

lemma splitOnNlAux_append {a : List Char} (acc rest : List Char) (h : '\n' ∉ a) :
    splitOnNlAux acc (a ++ '\n' :: rest) = (acc.reverse ++ a) :: splitOnNlAux [] rest := by
  induction a generalizing acc with
  | nil => simp [splitOnNlAux]
  | cons c cs ih =>
    have hc : ¬ c = '\n' := fun hh => h (hh ▸ List.mem_cons_self c cs)
    have hcs : '\n' ∉ cs := fun hh => h (List.mem_cons_of_mem c hh)
    simp only [List.cons_append, splitOnNlAux, if_neg hc, List.append_eq]
    rw [ih _ hcs]
    simp

lemma splitOnNlAux_no_nl {a : List Char} (acc : List Char) (h : '\n' ∉ a) :
    splitOnNlAux acc a = [acc.reverse ++ a] := by
  induction a generalizing acc with
  | nil => simp [splitOnNlAux]
  | cons c cs ih =>
    have hc : ¬ c = '\n' := fun hh => h (hh ▸ List.mem_cons_self c cs)
    have hcs : '\n' ∉ cs := fun hh => h (List.mem_cons_of_mem c hh)
    simp only [splitOnNlAux, if_neg hc]
    rw [ih _ hcs]
    simp

lemma splitOnNl_joinWith : ∀ {xs : List (List Char)}, xs ≠ [] →
    (∀ x ∈ xs, '\n' ∉ x) → splitOnNl (joinWith (str "\n") xs) = xs := by
  intro xs
  induction xs with
  | nil => intro h; exact absurd rfl h
  | cons x rest ih =>
    intro _ hall
    match rest with
    | [] =>
      unfold splitOnNl
      rw [show joinWith (str "\n") [x] = x from rfl]
      exact splitOnNlAux_no_nl [] (hall x (by simp))
    | y :: ys =>
      have hxs : '\n' ∉ x := hall x (by simp)
      have hjoin : joinWith (str "\n") (x :: y :: ys) =
          x ++ '\n' :: joinWith (str "\n") (y :: ys) := by
        show x ++ str "\n" ++ joinWith (str "\n") (y :: ys) = _
        rw [show str "\n" = ['\n'] from rfl]
        simp
      unfold splitOnNl
      rw [hjoin, splitOnNlAux_append [] _ hxs]
      have := ih (by simp) (fun z hz => hall z (List.mem_cons_of_mem x hz))
      unfold splitOnNl at this
      rw [this]
      simp

lemma spnAux_append {a : List Char} (acc rest : List Char) (h : '\n' ∉ a) :
    splitPreservingNewlinesAux acc (a ++ '\n' :: rest) =
      ((acc.reverse ++ a) ++ ['\n']) :: splitPreservingNewlinesAux [] rest := by
  induction a generalizing acc with
  | nil => simp [splitPreservingNewlinesAux]
  | cons c cs ih =>
    have hc : ¬ c = '\n' := fun hh => h (hh ▸ List.mem_cons_self c cs)
    have hcs : '\n' ∉ cs := fun hh => h (List.mem_cons_of_mem c hh)
    simp only [List.cons_append, splitPreservingNewlinesAux, if_neg hc, List.append_eq]
    rw [ih _ hcs]
    simp

lemma spnAux_no_nl {a : List Char} (acc : List Char) (h : '\n' ∉ a)
    (hne : acc.reverse ++ a ≠ []) :
    splitPreservingNewlinesAux acc a = [acc.reverse ++ a] := by
  induction a generalizing acc with
  | nil =>
    simp only [List.append_nil] at hne
    simp [splitPreservingNewlinesAux, show ¬ acc = [] from fun hh => hne (by simp [hh])]
  | cons c cs ih =>
    have hc : ¬ c = '\n' := fun hh => h (hh ▸ List.mem_cons_self c cs)
    have hcs : '\n' ∉ cs := fun hh => h (List.mem_cons_of_mem c hh)
    simp only [splitPreservingNewlinesAux, if_neg hc]
    rw [ih _ hcs (by simp)]
    simp

lemma spn_cons {a : List Char} (rest : List Char) (h : '\n' ∉ a) :
    splitPreservingNewlines ((a ++ ['\n']) ++ rest) =
      (a ++ ['\n']) :: splitPreservingNewlines rest := by
  unfold splitPreservingNewlines
  rw [show (a ++ ['\n']) ++ rest = a ++ '\n' :: rest from by simp]
  rw [spnAux_append [] rest h]
  simp

lemma spn_no_nl {a : List Char} (h : '\n' ∉ a) (hne : a ≠ []) :
    splitPreservingNewlines a = [a] := by
  unfold splitPreservingNewlines
  rw [spnAux_no_nl [] h (by simpa using hne)]
  simp

lemma spn_encode_close (bs : List (List Char)) (hbs : ∀ b ∈ bs, '\n' ∉ b) :
    splitPreservingNewlines (encodeLines bs ++ str "```") =
      bs.map (· ++ ['\n']) ++ [str "```"] := by
  induction bs with
  | nil =>
    simp only [encodeLines, List.map_nil, List.flatten_nil, List.nil_append]
    exact spn_no_nl (by decide) (by decide)
  | cons b rest ih =>
    have hb : '\n' ∉ b := hbs b (by simp)
    have henc : encodeLines (b :: rest) ++ str "```" =
        (b ++ ['\n']) ++ (encodeLines rest ++ str "```") := by
      simp [encodeLines]
    rw [henc, spn_cons _ hb, ih (fun x hx => hbs x (List.mem_cons_of_mem b hx))]
    simp

lemma takeWhile_append_of_all {α} {p : α → Bool} {l1 : List α} (l2 : List α)
    (h : ∀ x ∈ l1, p x = true) : (l1 ++ l2).takeWhile p = l1 ++ l2.takeWhile p := by
  induction l1 with
  | nil => simp
  | cons a as ih =>
    simp only [List.cons_append, List.takeWhile_cons, h a (by simp), if_true]
    rw [ih (fun x hx => h x (List.mem_cons_of_mem a hx))]

lemma dropWhile_append_of_all {α} {p : α → Bool} {l1 : List α} (l2 : List α)
    (h : ∀ x ∈ l1, p x = true) : (l1 ++ l2).dropWhile p = l2.dropWhile p := by
  induction l1 with
  | nil => simp
  | cons a as ih =>
    simp only [List.cons_append, List.dropWhile_cons, h a (by simp), if_true]
    exact ih (fun x hx => h x (List.mem_cons_of_mem a hx))

lemma tokenize_pathFence (p : List Char) (bs : List (List Char))
    (hpn : '\n' ∉ p) (hpf : isFenceLineChars (p ++ ['\n']) = false)
    (hbs : ∀ b ∈ bs, '\n' ∉ b ∧ isFenceLineChars (b ++ ['\n']) = false) :
    tokenize (pathFenceInput p bs) =
      ⟨TokKind.line, p ++ ['\n']⟩ :: ⟨TokKind.fence, str "```" ++ ['\n']⟩ ::
      (bs.map (fun b => ⟨TokKind.line, b ++ ['\n']⟩) ++ [⟨TokKind.fence, str "```"⟩]) := by
  unfold tokenize pathFenceInput
  rw [spn_cons _ hpn, spn_cons _ (by decide), spn_encode_close bs (fun b hb => (hbs b hb).1)]
  simp only [List.map_cons, List.map_append, List.map_map, List.map_cons, List.map_nil]
  refine congrArg₂ _ (by simp [classifyLine, hpf]) (congrArg₂ _ (by decide) ?_)
  refine congrArg₂ _ ?_ (by decide)
  apply List.map_congr_left
  intro b hb
  simp [classifyLine, (hbs b hb).2]

lemma segGo_nil (fuel : Nat) : segGo fuel [] = [] := by
  cases fuel <;> rfl

lemma segGo_line_step (fuel : Nat) (t : List Char) (rest : List Tok) :
    segGo (fuel + 1) (⟨TokKind.line, t⟩ :: rest) = Segment.line t :: segGo fuel rest := by
  simp [segGo]

lemma parseSegments_pathFence (p : List Char) (bs : List (List Char))
    (hpn : '\n' ∉ p) (hpf : isFenceLineChars (p ++ ['\n']) = false)
    (hbs : ∀ b ∈ bs, '\n' ∉ b ∧ isFenceLineChars (b ++ ['\n']) = false) :
    parseSegmentsFromOutput (pathFenceInput p bs) =
      [Segment.line (p ++ ['\n']),
       Segment.code (str "```" ++ ['\n']) (bs.map (· ++ ['\n'])) (str "```")] := by
  unfold parseSegmentsFromOutput
  rw [if_neg (by simp [pathFenceInput])]
  rw [tokenize_pathFence p bs hpn hpf hbs]
  rw [List.length_cons, segGo_line_step]
  rw [List.length_cons]
  have hkind : (⟨TokKind.fence, str "```" ++ ['\n']⟩ : Tok).kind ≠ TokKind.line := by decide
  simp only [segGo, if_neg hkind]
  have hall : ∀ x ∈ bs.map (fun b => (⟨TokKind.line, b ++ ['\n']⟩ : Tok)), isLineTok x = true := by
    intro x hx
    obtain ⟨b, _, rfl⟩ := List.mem_map.mp hx
    rfl
  rw [takeWhile_append_of_all _ hall, dropWhile_append_of_all _ hall]
  simp only [List.takeWhile_cons, List.dropWhile_cons,
    show isLineTok ⟨TokKind.fence, str "```"⟩ = false from rfl]
  simp [List.map_map, segGo_nil]

lemma collectPrompt_not_prompt {line : List Char} (prompts : List (List Char))
    (h : isPromptLine (jsTrim line) = false) :
    collectPromptMessage line prompts = (false, prompts) := by
  unfold collectPromptMessage
  by_cases he : jsTrim line = []
  · simp [he]
  · simp [he, h]

lemma collectPrompt_new {line : List Char} (prompts : List (List Char))
    (hne : jsTrim line ≠ []) (h : isPromptLine (jsTrim line) = true)
    (hlast : prompts.getLast? ≠ some (jsTrim line)) :
    collectPromptMessage line prompts = (true, prompts ++ [jsTrim line]) := by
  unfold collectPromptMessage
  simp [hne, h, hlast]

lemma collectPrompt_dup {line : List Char} (prompts : List (List Char))
    (hne : jsTrim line ≠ []) (h : isPromptLine (jsTrim line) = true)
    (hlast : prompts.getLast? = some (jsTrim line)) :
    collectPromptMessage line prompts = (true, prompts) := by
  unfold collectPromptMessage
  simp [hne, h, hlast]

lemma psGo_step_prompt {fuel : Nat} {t : List Char} {rest : List Segment}
    {st : ParseState} {ps2 : List (List Char)}
    (hcp : collectPromptMessage (trimTrailingNewline t) st.prompts = (true, ps2)) :
    psGo (fuel + 1) (Segment.line t :: rest) st =
      psGo fuel rest { st with prompts := ps2, capturingUserMessage := false } := by
  simp only [psGo, hcp]

lemma psGo_step_pair {fuel : Nat} {t o c : List Char} {body : List (List Char)}
    {rest : List Segment} {st : ParseState} {eb : EditBlock}
    (hcp : collectPromptMessage (trimTrailingNewline t) st.prompts = (false, st.prompts))
    (hcond : (isPotentialFilePath (jsTrim (trimTrailingNewline t)) &&
      !isCommandEcho (trimTrailingNewline t)) = true)
    (hbuild : buildEditBlockFromPathAndCode (jsTrim (trimTrailingNewline t)) body = some eb) :
    psGo (fuel + 1) (Segment.line t :: Segment.code o body c :: rest) st =
      psGo fuel rest
        { st with editBlocks := st.editBlocks ++ [eb], capturingUserMessage := false } := by
  simp only [psGo, hcp, hcond, if_true, hbuild]

lemma psGo_nil (fuel : Nat) (st : ParseState) : psGo fuel [] st = st := by
  cases fuel <;> rfl

lemma linesToContent_encode (bs : List (List Char))
    (h : ∀ b ∈ bs, '\n' ∉ b ∧ '\r' ∉ b) :
    linesToContent (bs.map (· ++ ['\n'])) = joinWith (str "\n") bs := by
  unfold linesToContent
  rw [List.map_map]
  congr 1
  have hcong : ∀ b ∈ bs, (trimTrailingNewline ∘ (· ++ ['\n'])) b = id b := by
    intro b hb
    simpa using ttn_append_nl (h b hb).1 (h b hb).2
  rw [List.map_congr_left hcong, List.map_id]

/-! ## C6: whole-file block from a path line plus fence

The claim misses one precondition of the code: the path line is tested as
a confirmation prompt before the path-plus-fence pairing, so a
whitespace-free plausible path that also matches a prompt phrasing (for
example one containing a question mark and y/n) is consumed as a prompt
and no edit block is produced. -/

/-- C6 counterexample: the line before the fence is a plausible file path
(no whitespace, not a command echo) and the body holds no SEARCH marker,
yet parseAiderOutput yields no edit block because the line is classified
as a confirmation prompt first; the fence is reported as a plain code
block. -/
theorem c6_whole_block_counterexample :
    isPotentialFilePath (str "a?(y/n)") = true ∧
    isCommandEcho (str "a?(y/n)") = false ∧
    hasSub searchMarker (str "body") = false ∧
    (parseAiderOutput (str "a?(y/n)\n```\nbody\n```")).editBlocks = [] ∧
    (parseAiderOutput (str "a?(y/n)\n```\nbody\n```")).codeBlocks =
      [⟨str "unknown", str "body"⟩] ∧
    (parseAiderOutput (str "a?(y/n)\n```\nbody\n```")).prompts = [str "a?(y/n)"] := by
  decide

/-- C6 (amended): for a plain line that is a plausible file path (no
whitespace, not a command echo, and additionally not matching the
confirmation-prompt phrasing) immediately followed by a complete fenced
block whose body does not contain the SEARCH marker, parseAiderOutput
yields exactly one whole-format edit block with that path, the fenced
body as newText and no oldText, and emits no code block for that fence. -/
theorem c6_whole_block_amended (p : List Char) (bs : List (List Char))
    (hp_nospace : ∀ c ∈ p, isJsSpace c = false)
    (hp_valid : isValidFilePath p = true)
    (hp_noprompt : isPromptLine p = false)
    (hp_noecho : isCommandEcho p = false)
    (hp_nofence : isFenceLineChars (p ++ ['\n']) = false)
    (hbs : ∀ b ∈ bs, '\n' ∉ b ∧ '\r' ∉ b ∧ isFenceLineChars (b ++ ['\n']) = false)
    (hnosearch : hasSub searchMarker (joinWith (str "\n") bs) = false) :
    (parseAiderOutput (pathFenceInput p bs)).editBlocks =
      [⟨EditFormat.whole, p, none, joinWith (str "\n") bs⟩] ∧
    (parseAiderOutput (pathFenceInput p bs)).codeBlocks = [] := by
  have hpn : '\n' ∉ p := fun hmem => absurd (hp_nospace '\n' hmem) (by decide)
  have hpr : '\r' ∉ p := fun hmem => absurd (hp_nospace '\r' hmem) (by decide)
  have httn : trimTrailingNewline (p ++ ['\n']) = p := ttn_append_nl hpn hpr
  have htrim : jsTrim p = p := jsTrim_eq_self hp_nospace
  have hpot : isPotentialFilePath p = true := by
    unfold isPotentialFilePath
    rw [if_neg]
    · exact hp_valid
    · simp only [Bool.or_eq_true, decide_eq_true_eq, List.any_eq_true, not_or, not_exists]
      refine ⟨valid_path_nonempty hp_valid, fun c => ?_⟩
      rintro ⟨hc, hsp⟩
      rw [hp_nospace c hc] at hsp
      exact Bool.false_ne_true hsp
  have hbuild : buildEditBlockFromPathAndCode p (bs.map (· ++ ['\n'])) =
      some ⟨EditFormat.whole, p, none, joinWith (str "\n") bs⟩ := by
    unfold buildEditBlockFromPathAndCode
    rw [linesToContent_encode bs (fun b hb => ⟨(hbs b hb).1, (hbs b hb).2.1⟩)]
    rw [if_neg (by simp [hnosearch])]
  have hseg := parseSegments_pathFence p bs hpn hp_nofence
    (fun b hb => ⟨(hbs b hb).1, (hbs b hb).2.2⟩)
  have hcp : collectPromptMessage (trimTrailingNewline (p ++ ['\n']))
      ({} : ParseState).prompts = (false, ({} : ParseState).prompts) := by
    rw [httn]
    exact collectPrompt_not_prompt _ (by rw [htrim]; exact hp_noprompt)
  have hcond : (isPotentialFilePath (jsTrim (trimTrailingNewline (p ++ ['\n']))) &&
      !isCommandEcho (trimTrailingNewline (p ++ ['\n']))) = true := by
    rw [httn, htrim, hpot, hp_noecho]
    rfl
  have hbuild2 : buildEditBlockFromPathAndCode (jsTrim (trimTrailingNewline (p ++ ['\n'])))
      (bs.map (· ++ ['\n'])) = some ⟨EditFormat.whole, p, none, joinWith (str "\n") bs⟩ := by
    rw [httn, htrim]
    exact hbuild
  unfold parseAiderOutput processSegments
  rw [hseg, List.length_cons, psGo_step_pair hcp hcond hbuild2, psGo_nil]
  simp

/-- Witness for C6 (amended) at a concrete path and body. -/
theorem c6_whole_block_amended_witness :
    (parseAiderOutput (pathFenceInput (str "a.py") [str "hi"])).editBlocks =
      [⟨EditFormat.whole, str "a.py", none, joinWith (str "\n") [str "hi"]⟩] ∧
    (parseAiderOutput (pathFenceInput (str "a.py") [str "hi"])).codeBlocks = [] :=
  c6_whole_block_amended (str "a.py") [str "hi"] (by decide) (by decide) (by decide)
    (by decide) (by decide) (by decide) (by decide)

/-! ## C4: only the first SEARCH/REPLACE triplet of a block is honored -/

lemma srbGo_step_triplet (fuel : Nat) (s r : List Char) (rest : List (List Char))
    (hs : ¬ jsTrim s = dividerMarker) (hr : ¬ jsTrim r = replaceMarker) :
    srbGo (fuel + 1)
      (searchMarker :: s :: dividerMarker :: r :: replaceMarker :: rest) =
      ⟨s, r⟩ :: srbGo fuel rest := by
  have hs2 : (decide ¬(jsTrim s = dividerMarker)) = true := by simpa using hs
  have hr2 : (decide ¬(jsTrim r = replaceMarker)) = true := by simpa using hr
  have hdd : (decide ¬(jsTrim dividerMarker = dividerMarker)) = false := by decide
  have hrr : (decide ¬(jsTrim replaceMarker = replaceMarker)) = false := by decide
  simp only [srbGo, if_pos (show jsTrim searchMarker = searchMarker from by decide),
    List.takeWhile_cons, List.dropWhile_cons, hs2, hr2, hdd, hrr, if_true,
    Bool.false_eq_true, if_false, List.tail_cons]
  simp [joinWith]

lemma extract_two_triplets (s1 r1 s2 r2 : List Char)
    (hnl : '\n' ∉ s1 ∧ '\n' ∉ r1 ∧ '\n' ∉ s2 ∧ '\n' ∉ r2)
    (hs1 : ¬ jsTrim s1 = dividerMarker) (hr1 : ¬ jsTrim r1 = replaceMarker)
    (hs2 : ¬ jsTrim s2 = dividerMarker) (hr2 : ¬ jsTrim r2 = replaceMarker) :
    extractSearchReplaceBlocks (joinWith (str "\n")
      [searchMarker, s1, dividerMarker, r1, replaceMarker,
       searchMarker, s2, dividerMarker, r2, replaceMarker]) =
      [⟨s1, r1⟩, ⟨s2, r2⟩] := by
  have hmem : ∀ x ∈ [searchMarker, s1, dividerMarker, r1, replaceMarker,
      searchMarker, s2, dividerMarker, r2, replaceMarker], '\n' ∉ x := by
    intro x hx
    simp only [List.mem_cons, List.not_mem_nil, or_false] at hx
    rcases hx with h | h | h | h | h | h | h | h | h | h
    · rw [h]; decide
    · rw [h]; exact hnl.1
    · rw [h]; decide
    · rw [h]; exact hnl.2.1
    · rw [h]; decide
    · rw [h]; decide
    · rw [h]; exact hnl.2.2.1
    · rw [h]; decide
    · rw [h]; exact hnl.2.2.2
    · rw [h]; decide
  unfold extractSearchReplaceBlocks
  rw [splitOnNl_joinWith (by simp) hmem]
  rw [List.length_cons, srbGo_step_triplet _ _ _ _ hs1 hr1]
  rw [List.length_cons, srbGo_step_triplet _ _ _ _ hs2 hr2]
  rw [srbGo]

/-- C4: a fenced block paired with a path whose body holds two complete
SEARCH/REPLACE triplets produces exactly one diff-format edit block,
whose oldText and newText are the search and replace lines of the first
triplet; the second triplet produces nothing (and no code block is
reported for the fence). -/
theorem c4_first_triplet_only (p s1 r1 s2 r2 : List Char)
    (hp_nospace : ∀ c ∈ p, isJsSpace c = false)
    (hp_valid : isValidFilePath p = true)
    (hp_noprompt : isPromptLine p = false)
    (hp_noecho : isCommandEcho p = false)
    (hp_nofence : isFenceLineChars (p ++ ['\n']) = false)
    (hlines : ∀ x ∈ [s1, r1, s2, r2],
      '\n' ∉ x ∧ '\r' ∉ x ∧ isFenceLineChars (x ++ ['\n']) = false)
    (hs1 : ¬ jsTrim s1 = dividerMarker) (hr1 : ¬ jsTrim r1 = replaceMarker)
    (hs2 : ¬ jsTrim s2 = dividerMarker) (hr2 : ¬ jsTrim r2 = replaceMarker) :
    (parseAiderOutput (pathFenceInput p
        [searchMarker, s1, dividerMarker, r1, replaceMarker,
         searchMarker, s2, dividerMarker, r2, replaceMarker])).editBlocks =
      [⟨EditFormat.diff, p, some s1, r1⟩] ∧
    (parseAiderOutput (pathFenceInput p
        [searchMarker, s1, dividerMarker, r1, replaceMarker,
         searchMarker, s2, dividerMarker, r2, replaceMarker])).codeBlocks = [] := by
  have hpn : '\n' ∉ p := fun hmem => absurd (hp_nospace '\n' hmem) (by decide)
  have hpr : '\r' ∉ p := fun hmem => absurd (hp_nospace '\r' hmem) (by decide)
  have httn : trimTrailingNewline (p ++ ['\n']) = p := ttn_append_nl hpn hpr
  have htrim : jsTrim p = p := jsTrim_eq_self hp_nospace
  have hbody : ∀ b ∈ [searchMarker, s1, dividerMarker, r1, replaceMarker,
      searchMarker, s2, dividerMarker, r2, replaceMarker],
      '\n' ∉ b ∧ '\r' ∉ b ∧ isFenceLineChars (b ++ ['\n']) = false := by
    intro x hx
    simp only [List.mem_cons, List.not_mem_nil, or_false] at hx
    rcases hx with h | h | h | h | h | h | h | h | h | h
    · rw [h]; exact ⟨by decide, by decide, by decide⟩
    · rw [h]; exact hlines s1 (by simp)
    · rw [h]; exact ⟨by decide, by decide, by decide⟩
    · rw [h]; exact hlines r1 (by simp)
    · rw [h]; exact ⟨by decide, by decide, by decide⟩
    · rw [h]; exact ⟨by decide, by decide, by decide⟩
    · rw [h]; exact hlines s2 (by simp)
    · rw [h]; exact ⟨by decide, by decide, by decide⟩
    · rw [h]; exact hlines r2 (by simp)
    · rw [h]; exact ⟨by decide, by decide, by decide⟩
  have hpot : isPotentialFilePath p = true := by
    unfold isPotentialFilePath
    rw [if_neg]
    · exact hp_valid
    · simp only [Bool.or_eq_true, decide_eq_true_eq, List.any_eq_true, not_or, not_exists]
      refine ⟨valid_path_nonempty hp_valid, fun c => ?_⟩
      rintro ⟨hc, hsp⟩
      rw [hp_nospace c hc] at hsp
      exact Bool.false_ne_true hsp
  have hbuild : buildEditBlockFromPathAndCode p
      ([searchMarker, s1, dividerMarker, r1, replaceMarker,
        searchMarker, s2, dividerMarker, r2, replaceMarker].map (· ++ ['\n'])) =
      some ⟨EditFormat.diff, p, some s1, r1⟩ := by
    unfold buildEditBlockFromPathAndCode
    rw [linesToContent_encode _ (fun b hb => ⟨(hbody b hb).1, (hbody b hb).2.1⟩)]
    have hpre : strStartsWith searchMarker (joinWith (str "\n")
        [searchMarker, s1, dividerMarker, r1, replaceMarker,
         searchMarker, s2, dividerMarker, r2, replaceMarker]) = true := by
      rw [show joinWith (str "\n")
          [searchMarker, s1, dividerMarker, r1, replaceMarker,
           searchMarker, s2, dividerMarker, r2, replaceMarker] =
          searchMarker ++ (str "\n" ++ joinWith (str "\n")
            [s1, dividerMarker, r1, replaceMarker,
             searchMarker, s2, dividerMarker, r2, replaceMarker]) from by
        show searchMarker ++ str "\n" ++ _ = _
        rw [List.append_assoc]]
      exact strStartsWith_self_append ..
    dsimp only
    rw [if_pos (hasSub_of_startsWith hpre)]
    unfold parseDiffFormat
    rw [extract_two_triplets s1 r1 s2 r2 ⟨(hlines s1 (by simp)).1, (hlines r1 (by simp)).1,
      (hlines s2 (by simp)).1, (hlines r2 (by simp)).1⟩ hs1 hr1 hs2 hr2]
  have hseg := parseSegments_pathFence p
    [searchMarker, s1, dividerMarker, r1, replaceMarker,
     searchMarker, s2, dividerMarker, r2, replaceMarker] hpn hp_nofence
    (fun b hb => ⟨(hbody b hb).1, (hbody b hb).2.2⟩)
  have hcp : collectPromptMessage (trimTrailingNewline (p ++ ['\n']))
      ({} : ParseState).prompts = (false, ({} : ParseState).prompts) := by
    rw [httn]
    exact collectPrompt_not_prompt _ (by rw [htrim]; exact hp_noprompt)
  have hcond : (isPotentialFilePath (jsTrim (trimTrailingNewline (p ++ ['\n']))) &&
      !isCommandEcho (trimTrailingNewline (p ++ ['\n']))) = true := by
    rw [httn, htrim, hpot, hp_noecho]
    rfl
  have hbuild2 : buildEditBlockFromPathAndCode (jsTrim (trimTrailingNewline (p ++ ['\n'])))
      ([searchMarker, s1, dividerMarker, r1, replaceMarker,
        searchMarker, s2, dividerMarker, r2, replaceMarker].map (· ++ ['\n'])) =
      some ⟨EditFormat.diff, p, some s1, r1⟩ := by
    rw [httn, htrim]
    exact hbuild
  unfold parseAiderOutput processSegments
  rw [hseg, List.length_cons, psGo_step_pair hcp hcond hbuild2, psGo_nil]
  simp

/-- Witness for C4 at concrete path and triplet contents. -/
theorem c4_first_triplet_only_witness :
    (parseAiderOutput (pathFenceInput (str "f.py")
        [searchMarker, str "a", dividerMarker, str "b", replaceMarker,
         searchMarker, str "c", dividerMarker, str "d", replaceMarker])).editBlocks =
      [⟨EditFormat.diff, str "f.py", some (str "a"), str "b"⟩] ∧
    (parseAiderOutput (pathFenceInput (str "f.py")
        [searchMarker, str "a", dividerMarker, str "b", replaceMarker,
         searchMarker, str "c", dividerMarker, str "d", replaceMarker])).codeBlocks = [] :=
  c4_first_triplet_only (str "f.py") (str "a") (str "b") (str "c") (str "d")
    (by decide) (by decide) (by decide) (by decide) (by decide) (by decide)
    (by decide) (by decide) (by decide) (by decide)

/-! ## C7: confirmation-prompt detection and deduplication -/

/-- C7: the two example lines are classified as confirmation prompts and
recorded in the prompts list of the parse result, and a prompt line
repeated on consecutive qualifying lines is recorded only once (the first
occurrence is kept, since a line equal to the last recorded prompt is not
pushed again). -/
theorem c7_prompt_detection :
    (parseAiderOutput (str "Add file to the chat? (Y)es/(N)o")).prompts =
      [str "Add file to the chat? (Y)es/(N)o"] ∧
    (parseAiderOutput (str "Continue? [y/N]")).prompts = [str "Continue? [y/N]"] ∧
    (∀ p : List Char, jsTrim p ≠ [] → isPromptLine (jsTrim p) = true →
      '\n' ∉ p → '\r' ∉ p →
      isFenceLineChars (p ++ ['\n']) = false → isFenceLineChars p = false →
      (parseAiderOutput (p ++ '\n' :: p)).prompts = [jsTrim p]) := by
  refine ⟨by decide, by decide, ?_⟩
  intro p hne hprompt hnl hnr hf1 hf2
  have hp_ne : p ≠ [] := fun h => hne (by rw [h]; rfl)
  have hsplit : splitPreservingNewlines (p ++ '\n' :: p) = [p ++ ['\n'], p] := by
    rw [show p ++ '\n' :: p = (p ++ ['\n']) ++ p from by simp]
    rw [spn_cons _ hnl, spn_no_nl hnl hp_ne]
  have htok : tokenize (p ++ '\n' :: p) = [⟨TokKind.line, p ++ ['\n']⟩, ⟨TokKind.line, p⟩] := by
    unfold tokenize
    rw [hsplit]
    simp [classifyLine, hf1, hf2]
  have hseg : parseSegmentsFromOutput (p ++ '\n' :: p) =
      [Segment.line (p ++ ['\n']), Segment.line p] := by
    unfold parseSegmentsFromOutput
    rw [if_neg (by simp), htok, List.length_cons, segGo_line_step, List.length_cons,
      segGo_line_step, segGo_nil]
  have httn : trimTrailingNewline (p ++ ['\n']) = p := ttn_append_nl hnl hnr
  have httn2 : trimTrailingNewline p = p := ttn_eq_self hnl hnr
  have hcp1 : collectPromptMessage (trimTrailingNewline (p ++ ['\n']))
      ({} : ParseState).prompts = (true, [] ++ [jsTrim p]) := by
    rw [httn]
    exact collectPrompt_new _ hne hprompt (by simp)
  unfold parseAiderOutput processSegments
  rw [hseg, List.length_cons, psGo_step_prompt hcp1]
  simp only [List.nil_append]
  have hcp2 : collectPromptMessage (trimTrailingNewline p) [jsTrim p] = (true, [jsTrim p]) := by
    rw [httn2]
    exact collectPrompt_dup _ hne hprompt (by simp)
  rw [List.length_cons, psGo_step_prompt hcp2, psGo_nil]

/-- Witness for C7 at the concrete repeated prompt line. -/
theorem c7_prompt_detection_witness :
    (parseAiderOutput (str "Continue? [y/N]" ++ '\n' :: str "Continue? [y/N]")).prompts =
      [jsTrim (str "Continue? [y/N]")] :=
  c7_prompt_detection.2.2 (str "Continue? [y/N]") (by decide) (by decide) (by decide)
    (by decide) (by decide) (by decide)

/-! ## C5: unified-diff extraction

The positive example and the header-line semantics hold, and with no
diff header line no udiff block is produced; but the claim's "the block
is reported as a plain CodeBlock instead" is not always true: after the
udiff extractor declines, the diff-fenced extractor still runs, so a
diff-labeled block whose first line is a plausible path and whose body
holds a SEARCH/REPLACE triplet yields a diff edit block even though no
header line is present. -/

/-- C5 counterexample: a fenced block labeled diff with no header lines
still produces an edit block (via the diff-fenced extractor) instead of
being reported as a plain code block. -/
theorem c5_udiff_counterexample :
    (∀ l ∈ splitOnNl (str "f.py\n<<<<<<< SEARCH\nold\n=======\nnew\n>>>>>>> REPLACE"),
      strStartsWith (str "--- ") l = false ∧ strStartsWith (str "+++ ") l = false) ∧
    (parseAiderOutput
        (str "```diff\nf.py\n<<<<<<< SEARCH\nold\n=======\nnew\n>>>>>>> REPLACE\n```")).editBlocks =
      [⟨EditFormat.diff, str "f.py", some (str "old"), str "new"⟩] ∧
    (parseAiderOutput
        (str "```diff\nf.py\n<<<<<<< SEARCH\nold\n=======\nnew\n>>>>>>> REPLACE\n```")).codeBlocks =
      [] := by
  decide

lemma udiffGo_path_unchanged : ∀ (lines : List (List Char)) (acc : UdiffAcc),
    (∀ l ∈ lines, strStartsWith (str "--- ") l = false ∧
      strStartsWith (str "+++ ") l = false) →
    (udiffGo lines acc).path = acc.path := by
  intro lines
  induction lines with
  | nil =>
    intro acc _
    rfl
  | cons l rest ih =>
    intro acc h
    have h1 := (h l (by simp)).1
    have h2 := (h l (by simp)).2
    have hrest : ∀ x ∈ rest, strStartsWith (str "--- ") x = false ∧
        strStartsWith (str "+++ ") x = false :=
      fun x hx => h x (List.mem_cons_of_mem l hx)
    simp only [udiffGo, h1, h2, Bool.false_eq_true, if_false]
    split
    · exact ih _ hrest
    · split
      · exact ih _ hrest
      · exact ih _ hrest

lemma handleStandalone_fallback {o : List Char} {body : List (List Char)}
    {eb : List EditBlock} {cb : List CodeBlock}
    (hud : parseUdiffFormat (joinWith (str "\n") (body.map trimTrailingNewline)) = none)
    (hnf : ∀ first restL, body.map trimTrailingNewline = first :: restL →
      (isPotentialFilePath (jsTrim first) &&
        hasSub searchMarker (joinWith (str "\n") (first :: restL))) = false) :
    handleStandaloneCodeSegment o body eb cb =
      (eb, cb ++ [⟨if extractFenceLabel o = [] then str "unknown" else extractFenceLabel o,
        joinWith (str "\n") (body.map trimTrailingNewline)⟩]) := by
  unfold handleStandaloneCodeSegment
  dsimp only
  have hvu : (if asciiLowerStr (extractFenceLabel o) = str "diff" ∨
      asciiLowerStr (extractFenceLabel o) = str "udiff" then
      parseUdiffFormat (joinWith (str "\n") (body.map trimTrailingNewline))
      else none) = none := by
    split
    · exact hud
    · rfl
  rw [hvu]
  rcases hbody : body.map trimTrailingNewline with _ | ⟨first, restL⟩
  · rfl
  · have hc := hnf first restL hbody
    dsimp only
    rw [if_neg (by simp [hc])]

/-- C5 (amended): the concrete udiff example yields the expected edit
block; a diff-labeled content in which no line starts with the diff
headers produces no udiff block; and such a block falls through to a
plain code block provided additionally the diff-fenced extractor does
not fire (first line a plausible path over a body containing the SEARCH
marker) — without that proviso an edit block can still be produced, as
the counterexample shows. -/
theorem c5_udiff_extraction :
    ((parseAiderOutput (str "```diff\n--- a/f\n+++ a/f\n-old\n+new\n```")).editBlocks =
      [⟨EditFormat.udiff, str "a/f", some (str "old"), str "new"⟩] ∧
     (parseAiderOutput (str "```diff\n--- a/f\n+++ a/f\n-old\n+new\n```")).codeBlocks = []) ∧
    (∀ content : List Char,
      (∀ l ∈ splitOnNl content, strStartsWith (str "--- ") l = false ∧
        strStartsWith (str "+++ ") l = false) →
      parseUdiffFormat content = none) ∧
    (∀ (o : List Char) (body : List (List Char)) (eb : List EditBlock) (cb : List CodeBlock),
      (∀ l ∈ splitOnNl (joinWith (str "\n") (body.map trimTrailingNewline)),
        strStartsWith (str "--- ") l = false ∧ strStartsWith (str "+++ ") l = false) →
      (∀ first restL, body.map trimTrailingNewline = first :: restL →
        (isPotentialFilePath (jsTrim first) &&
          hasSub searchMarker (joinWith (str "\n") (first :: restL))) = false) →
      handleStandaloneCodeSegment o body eb cb =
        (eb, cb ++ [⟨if extractFenceLabel o = [] then str "unknown" else extractFenceLabel o,
          joinWith (str "\n") (body.map trimTrailingNewline)⟩])) ∧
    ((parseAiderOutput (str "```diff\njust text\n```")).editBlocks = [] ∧
     (parseAiderOutput (str "```diff\njust text\n```")).codeBlocks =
       [⟨str "diff", str "just text"⟩]) := by
  refine ⟨⟨by decide, by decide⟩, ?_, ?_, by decide, by decide⟩
  · intro content h
    have hpath := udiffGo_path_unchanged (splitOnNl content) ⟨[], [], []⟩ h
    unfold parseUdiffFormat
    dsimp only
    rw [if_pos hpath]
  · intro o body eb cb hud hnf
    exact handleStandalone_fallback
      ((fun hcontent => by
        have hpath := udiffGo_path_unchanged _ ⟨[], [], []⟩ hcontent
        unfold parseUdiffFormat
        dsimp only
        rw [if_pos hpath]) hud) hnf

/-- Witness for C5 at concrete inputs. -/
theorem c5_udiff_extraction_witness :
    parseUdiffFormat (str "hello world") = none :=
  c5_udiff_extraction.2.1 (str "hello world") (by decide)

end AiderACP
